import Mathlib

/-!
Verification development for the resumable OSS uploader of `st-util`
(`src/biz/Uploader.ts`, class `OssUploader`, plus `src/lib/tryParseJson.ts`).

The TypeScript code is shallowly embedded: each source function becomes a
Lean definition of the same name (state passed explicitly, the browser
`localStorage` modelled as an association list, external collaborators —
token endpoint, the `ali-oss` `multipartUpload` primitive, the caller's
`useCache` decision function and `beforeRetry` observers — modelled as an
explicit environment record).  `Date.now()` is modelled by a fixed `now`
carried in the environment.  Events emitted through the `EventClass`
mix-in become an explicit trace (`List Ev`).
-/

set_option maxRecDepth 100000

namespace StUtil

/-- A browser `File` object: the identity fields used by the uploader plus
an opaque binary payload (`contents`) that is NOT JSON-serializable and is
never part of the fingerprint. -/
structure File where
  name : String
  size : Nat
  type : String
  lastModified : Int
  contents : List Nat
deriving DecidableEq

/-- `OssUploadParam` after default resolution: all fields present.
Source: interface `OssUploadParam` (fileType, subCategory, fileExtension);
the enums `OssFileType` / `OssSubCategory` are modelled by their numeric
values. -/
structure OssParamR where
  fileType : Nat
  subCategory : Nat
  fileExtension : String
deriving DecidableEq

/-- Caller-supplied `OssUploadParam`: every field optional (the `resume`
flag of `OssUploadParamInner` is passed separately). -/
structure OssUploadParamOpt where
  fileType : Option Nat
  subCategory : Option Nat
  fileExtension : Option String
deriving DecidableEq

/-- The all-defaults parameter object `{}` (used by `resume()`, which calls
`upload(this.file!, { resume: true })`). -/
def emptyParam : OssUploadParamOpt := ⟨none, none, none⟩

/-- `OssToken`: credentials plus the server-assigned remote file name. -/
structure OssToken where
  region : String
  bucket : String
  stsToken : String
  accessKeyId : String
  accessKeySecret : String
  fileName : String
deriving DecidableEq

/-- The opaque `ali-oss` checkpoint object.  The uploader never interprets
it beyond re-attaching the live `file` reference on resume
(`cachedTrack.checkpoint.file = file`); `data` stands for the rest of the
blob. -/
structure Checkpoint where
  data : Nat
  file : Option File
deriving DecidableEq

/-- `OssItem`: the fingerprint input — spread upload params plus the four
serializable `File` identity fields (source: `getOssItem`). -/
structure OssItem where
  param : OssParamR
  name : String
  size : Nat
  type : String
  lastModified : Int
deriving DecidableEq

/-- `OssTrack`: the persisted progress record.  In the source the `OssItem`
fields are spread flat into the track; here they are nested under `item`. -/
structure OssTrack where
  item : OssItem
  fileName : String
  percent : Rat
  checkpoint : Option Checkpoint
  lastTime : Int
  param : OssParamR
  token : Option OssToken
deriving DecidableEq

/-- A JavaScript exception object as far as the uploader inspects it:
`ex.status` and `ex.name` (source: `ex && ex.status == 0 && ex.name == 'cancel'`). -/
structure ErrObj where
  status : Option Int
  name : Option String
deriving DecidableEq

/-- The cancellation signature test from the catch block of `uploadWork`. -/
def isCancelError (e : ErrObj) : Bool :=
  e.status == some 0 && e.name == some "cancel"

/-- The `multipartUpload` result as far as the uploader reads it:
`dot(result, 'res.requestUrls[0]')`, i.e. the `res.requestUrls` array. -/
structure OssResult where
  requestUrls : List String
deriving DecidableEq

/-- A TypeError escaping `upload()`'s async boundary (promise rejection). -/
inductive JsError where
  | typeError (msg : String)
deriving DecidableEq

/-- Result of the caller-pluggable `useCache` resume-policy function. -/
inductive UseCacheRes where
  | yes
  | no
  | cancel
deriving DecidableEq

/-- Events emitted through the `EventClass` mix-in.  Payloads are reduced
to the observation each claim needs (the `file` reference, constant over a
run, is dropped). -/
inductive Ev where
  | begin
  | prepare
  | beforeGetToken
  | afterGetToken (token : OssToken)
  | progress (percent : Rat)
  | done (url : String)
  | fail (exception : ErrObj)
  | beforeRetry (tryCount maxTryCount : Nat)
  | isPausedChanged (value : Bool)
  | end_
deriving DecidableEq

/-! ## The Track Store (localStorage) -/

/-- A JSON value, for modelling arbitrary (non-Track) stored strings that
`cleanTracks` may encounter under the namespace. -/
inductive JVal where
  | jnull
  | jbool (b : Bool)
  | jnum (n : Int)
  | jstr (s : String)
  | jarr (xs : List JVal)
  | jobj (fields : List (String × JVal))

/-- A value stored in `localStorage`, by what `tryParseJson` makes of it:
either the JSON serialization of an `OssTrack` (what `saveTrack` writes),
some other well-formed JSON value, or a string that is not valid JSON
(on which `JSON.parse` throws and `tryParseJson` yields its `null`
default). -/
inductive SVal where
  | strack (t : OssTrack)
  | sjson (v : JVal)
  | smalformed (raw : String)

/-- The localStorage substrate: string-keyed, last write wins. -/
abbrev Store := List (String × SVal)

def sget (st : Store) (k : String) : Option SVal :=
  List.lookup k st

/-- `localStorage.setItem`: unconditional overwrite. -/
def sput (st : Store) (k : String) (v : SVal) : Store :=
  (k, v) :: st.filter (fun kv => kv.1 != k)

/-- `localStorage.removeItem`: idempotent delete. -/
def sdel (st : Store) (k : String) : Store :=
  st.filter (fun kv => kv.1 != k)

/-- Source constant `storageKeyPrefix = '@ossuploadtrack'`. -/
def storageKeyPfx : String := "@ossuploadtrack"

def trackKey (hash : String) : String := storageKeyPfx ++ hash

/-! Kernel-computable stand-ins for the JS string operations used by the
uploader.  They operate on the character list underlying `String`, so that
concrete runs of the model evaluate by reduction; each is semantically the
plain string operation named in its comment. -/

/-- `listPfx p l`: `p` is a prefix of `l`. -/
def listPfx : List Char → List Char → Bool
  | [], _ => true
  | _ :: _, [] => false
  | a :: as, b :: bs => (a == b) && listPfx as bs

/-- `s.startsWith p` (JS `String.prototype.startsWith`). -/
def strStartsWith (s p : String) : Bool :=
  listPfx p.data s.data

/-- The characters before the first occurrence of `marker` (everything from
the marker on is dropped, as in `replace(/marker.*/, '')`). -/
def stripAtMarker (marker : List Char) : List Char → List Char
  | [] => []
  | c :: rest =>
      if listPfx marker (c :: rest) then []
      else c :: stripAtMarker marker rest

/-- JS `toLowerCase()`. -/
def strToLower (s : String) : String :=
  String.mk (s.data.map Char.toLower)

/-- Decimal digits of `n` (most significant first), with enough fuel for
any value occurring here. -/
def natChars : Nat → Nat → List Char
  | 0, _ => []
  | fuel + 1, n =>
      if n = 0 then []
      else natChars fuel (n / 10) ++ [Char.ofNat (48 + n % 10)]

/-- Decimal rendering of a natural number. -/
def natStr (n : Nat) : String :=
  if n = 0 then "0" else String.mk (natChars 32 n)

/-- Decimal rendering of an integer. -/
def intStr : Int → String
  | Int.ofNat n => natStr n
  | Int.negSucc n => "-" ++ natStr (n + 1)

/-- JSON.stringify of a Track: faithful on every field except that a `File`
reference held inside the checkpoint does not survive serialization
(which is exactly why `upload()` re-attaches `file` on resume). -/
def serializeTrack (t : OssTrack) : OssTrack :=
  { t with checkpoint := t.checkpoint.map (fun c => { c with file := none }) }

/-- Source `saveTrack(track, hash)`. -/
def saveTrack (st : Store) (track : OssTrack) (hash : String) : Store :=
  sput st (trackKey hash) (SVal.strack (serializeTrack track))

/-- Source `getTrack(hash)`: `tryParseJson` of the stored string, soft on
malformed values.  A non-Track JSON value under a track key (never written
by this code) is not modelled and reads as absent. -/
def getTrack (st : Store) (hash : String) : Option OssTrack :=
  match sget st (trackKey hash) with
  | some (SVal.strack t) => some t
  | _ => none

/-- Source `delTrack(hash)`. -/
def delTrack (st : Store) (hash : String) : Store :=
  sdel st (trackKey hash)

/-- The `item.lastTime` read performed by `cleanTracks` on
`tryParseJson(localStorage.getItem(key))`: a serialized Track exposes its
`lastTime` field; other JSON objects expose a `lastTime` field only when
it is a number (JS coercion of non-number `lastTime` values is outside the
model); malformed JSON parses to the `null` default and `null`/non-objects
have no `lastTime`. -/
def svalLastTime : SVal → Option Int
  | SVal.strack t => some t.lastTime
  | SVal.sjson (JVal.jobj fields) =>
      match fields.lookup "lastTime" with
      | some (JVal.jnum n) => some n
      | _ => none
  | _ => none

/-- The deletion test of `cleanTracks`: key under the namespace, value with
a positive `lastTime`, and `Date.now() - lastTime > expireTime`. -/
def sweepable (now expireTime : Int) (k : String) (v : SVal) : Bool :=
  strStartsWith k storageKeyPfx &&
    (match svalLastTime v with
     | some lt => decide (lt > 0) && decide (now - lt > expireTime)
     | none => false)

/-- Source `cleanTracks(expireTime)`: sweep expired Tracks out of
localStorage.  Total — it never throws to its caller. -/
def cleanTracks (now expireTime : Int) (st : Store) : Store :=
  st.filter (fun kv => !(sweepable now expireTime kv.1 kv.2))

/-! ## Fingerprint -/

/-- Model of `JSON.stringify` on an `OssItem` (key order fixed by object
construction order in `getOssItem`). -/
def stringifyOssItem (i : OssItem) : String :=
  "fileType=" ++ natStr i.param.fileType ++
  ";subCategory=" ++ natStr i.param.subCategory ++
  ";fileExtension=" ++ i.param.fileExtension ++
  ";name=" ++ i.name ++
  ";size=" ++ natStr i.size ++
  ";type=" ++ i.type ++
  ";lastModified=" ++ intStr i.lastModified

/-- Model of the external `md5` digest: an arbitrary deterministic,
executable digest function.  The claims about `getHash` use only that it
is a pure function of its input string; collision behaviour is not
modelled. -/
def md5Model (s : String) : String :=
  "h" ++ natStr (s.data.foldl (fun a c => (a * 131 + c.toNat) % 1000000007) 7)

/-- Source `getOssItem(file, param)`. -/
def getOssItem (file : File) (param : OssParamR) : OssItem :=
  { param := param
  , name := file.name
  , size := file.size
  , type := file.type
  , lastModified := file.lastModified }

/-- Source `getHash(value)` specialised to its only call site
(`getHash(item)`): `md5(JSON.stringify(value))`. -/
def getHash (item : OssItem) : String :=
  md5Model (stringifyOssItem item)

/-- Source `getExt(name)`: `name.replace(/^[^.]+/, '')` guarded by
`name &&` — the suffix of the name starting at its first dot, empty when
there is no dot. -/
def getExt (name : String) : String :=
  if name = "" then "" else String.mk (name.toList.dropWhile (fun c => c ≠ '.'))

/-- Model of the external `stringRandom('upload', hash)` helper: an
arbitrary deterministic stand-in (the produced provisional `fileName` is
overwritten by the server-assigned name on token acquisition). -/
def stringRandomModel (a b : String) : String :=
  a ++ "_" ++ b ++ "_r"

/-- Source `newTrack(item, hash, param)`. -/
def newTrack (item : OssItem) (hash : String) (param : OssParamR) (now : Int) : OssTrack :=
  { item := item
  , fileName := stringRandomModel "upload" hash ++ param.fileExtension
  , percent := 0
  , checkpoint := none
  , lastTime := now
  , param := param
  , token := none }

/-! ## Uploader state, environment, control operations -/

/-- The mutable per-instance fields of `OssUploader`.  `client` holds the
token the `OSS` client was constructed from (`this.client = new OSS(token)`);
the substrate `localStorage` is carried here as well. -/
structure UpState where
  store : Store
  client : Option OssToken
  file : Option File
  hash : Option String
  isPausedInner : Bool
  hasBegin : Bool

/-- A fresh `OssUploader` over an empty localStorage. -/
def initUp : UpState :=
  { store := [], client := none, file := none, hash := none
  , isPausedInner := false, hasBegin := false }

/-- One invocation of the storage transfer primitive
(`client.multipartUpload`): the progress callbacks it fires, then its
outcome (resolution or rejection). -/
structure TransferRun where
  ticks : List (Rat × Checkpoint)
  outcome : Except ErrObj OssResult

/-- Behaviour of the external collaborators, indexed by attempt number
(`tryCount`) where the collaborator is invoked once per attempt:
the token endpoint (`options.getToken`), the transfer primitive, the
observers' decision on each cancelable `beforeRetry` event (indexed by the
event's `tryCount` payload), the caller's `useCache` resume policy, and
the clock. -/
structure Env where
  getToken : Nat → Except ErrObj OssToken
  transfer : Nat → TransferRun
  retryCanceled : Nat → Bool
  useCache : File → OssTrack → UseCacheRes
  now : Int

/-- `OssOptions` after `deepExtend` with `defaultOptions`: the fields the
claims depend on, fully resolved (the `getToken`/`useCache` functions and
the event monitor live in `Env`). -/
structure OssOptions where
  fileType : Nat
  subCategory : Nat
  fileExtension : Option String
  getTokenUrlBase : String
  getTokenUrlPath : String
  maxTryCount : Nat
  retryTimeout : Nat
  expireTime : Int

/-- Source `setIsPaused(value)`: store and emit only on actual change. -/
def setIsPaused (s : UpState) (value : Bool) : List Ev × UpState :=
  if value ≠ s.isPausedInner then
    ([Ev.isPausedChanged value], { s with isPausedInner := value })
  else
    ([], s)

/-- Source private `end()`: emit the global `end` event once per begun chain. -/
def endEmit (s : UpState) : List Ev × UpState :=
  if s.hasBegin then ([Ev.end_], { s with hasBegin := false }) else ([], s)

/-- Source private `clean()`: forget the remembered fingerprint and delete
its Track (guarded by JS truthiness of `this.hash`). -/
def clean (s : UpState) : UpState :=
  match s.hash with
  | some h =>
      if h = "" then s
      else { s with store := delTrack s.store h, hash := none, file := none }
  | none => s

/-- Source `pause()`: only when a client exists and not already paused;
`client.cancel()` is a signal to the transfer primitive (its effect shows
up as the primitive's own cancellation rejection, provided by `Env`). -/
def pause (s : UpState) : List Ev × UpState :=
  match s.client with
  | some _ => if s.isPausedInner then ([], s) else setIsPaused s true
  | none => ([], s)

/-- Token acquisition step of `uploadWork`:
`resume && track.token || await (… getToken …)()`.  Returns the emitted
events, the token (or the exception the fetch rejected with), the possibly
updated track and the possibly updated store. -/
structure TokenOut where
  evs : List Ev
  res : Except ErrObj OssToken
  track : OssTrack
  store : Store

def tokenStep (env : Env) (tryCount : Nat) (resume : Bool)
    (track : OssTrack) (hash : String) (store : Store) : TokenOut :=
  match resume, track.token with
  | true, some tok => ⟨[], Except.ok tok, track, store⟩
  | _, _ =>
      match env.getToken tryCount with
      | Except.ok ret =>
          let track' := { track with fileName := ret.fileName, token := some ret }
          ⟨[Ev.beforeGetToken, Ev.afterGetToken ret], Except.ok ret, track',
            saveTrack store track' hash⟩
      | Except.error ex => ⟨[Ev.beforeGetToken], Except.error ex, track, store⟩

/-- The `progress` callback chain of `multipartUpload`: per tick emit a
`progress` event with `p * 100`, update the track's percent / checkpoint /
lastTime and persist it. -/
def progressTicks (now : Int) (hash : String) :
    List (Rat × Checkpoint) → OssTrack → Store → List Ev × OssTrack × Store
  | [], track, store => ([], track, store)
  | (p, ck) :: rest, track, store =>
      let percent := p * 100
      let track' := { track with percent := percent, checkpoint := some ck, lastTime := now }
      let r := progressTicks now hash rest track' (saveTrack store track' hash)
      (Ev.progress percent :: r.1, r.2)

/-- Source `(dot(result, 'res.requestUrls[0]') || '').replace(/\?uploadId=.*\x2f, '')`. -/
def deriveUrl (result : OssResult) : String :=
  String.mk (stripAtMarker ("?uploadId=").data (result.requestUrls.headD "").data)

/-- Outcome of the `try` block of one `uploadWork` attempt, with the
cancellation sniff of the catch block applied:
`ok` — transfer resolved (state already cleaned);
`canceled` — rejection with the user-cancellation signature (silent return);
`failed` — any other rejection, before the `fail` event is emitted. -/
inductive AttemptOut where
  | ok (evs : List Ev) (s : UpState)
  | canceled (evs : List Ev) (s : UpState)
  | failed (evs : List Ev) (exception : ErrObj) (track : OssTrack) (s : UpState)

/-- One attempt of `uploadWork` (its `try` block): the `tryCount == 0`
bookkeeping, token acquisition, client construction, `prepare`, the
transfer with its progress callbacks, and on resolution the `done` event
plus `clean()`. -/
def attempt (env : Env) (file : File) (tryCount : Nat) (resume : Bool)
    (item : OssItem) (hash : String) (track : OssTrack) (s : UpState) : AttemptOut :=
  let es0 :=
    if tryCount = 0 then
      let ps := setIsPaused s false
      (Ev.begin :: ps.1,
        { ps.2 with hasBegin := true, file := some file, hash := some hash })
    else ([], s)
  let evs0 := es0.1
  let s0 := es0.2
  let t := tokenStep env tryCount resume track hash s0.store
  match t.res with
  | Except.error ex =>
      if isCancelError ex then AttemptOut.canceled (evs0 ++ t.evs) { s0 with store := t.store }
      else AttemptOut.failed (evs0 ++ t.evs) ex t.track { s0 with store := t.store }
  | Except.ok tok =>
      let s1 := { s0 with store := t.store, client := some tok }
      let tr := env.transfer tryCount
      let g := progressTicks env.now hash tr.ticks t.track s1.store
      let s2 := { s1 with store := g.2.2 }
      match tr.outcome with
      | Except.ok result =>
          AttemptOut.ok (evs0 ++ t.evs ++ [Ev.prepare] ++ g.1 ++ [Ev.done (deriveUrl result)])
            (clean s2)
      | Except.error ex =>
          if isCancelError ex then
            AttemptOut.canceled (evs0 ++ t.evs ++ [Ev.prepare] ++ g.1) s2
          else
            AttemptOut.failed (evs0 ++ t.evs ++ [Ev.prepare] ++ g.1) ex g.2.1 s2

/-- The retry chain of `uploadWork`, by structural recursion on the
remaining retry budget `rem`.  At the top-level entry `rem` is set to
`maxTryCount - tryCount`, so the source guard
`nextTryCount <= maxTryCount` is exactly `rem > 0` and the recursive call
(`setTimeout(() => this.uploadWork(file, { tryCount: nextTryCount, … }))`)
decrements `rem` as it increments `tryCount`.  On a non-cancellation
failure: emit `fail`; when the budget allows, emit the cancelable
`beforeRetry` and either stop (observer canceled ⇒ `end()`) or recurse
with `resume = false` on the mutated track; when exhausted, `end()`. -/
def uploadWorkGo (o : OssOptions) (env : Env) (file : File)
    (item : OssItem) (hash : String) :
    Nat → Nat → OssTrack → Bool → UpState → List Ev × UpState
  | rem, tryCount, track, resume, s =>
    match attempt env file tryCount resume item hash track s with
    | AttemptOut.ok evs s' => (evs, s')
    | AttemptOut.canceled evs s' => (evs, s')
    | AttemptOut.failed evs ex track' s' =>
        let evsF := evs ++ [Ev.fail ex]
        match rem with
        | rem' + 1 =>
            let evB := Ev.beforeRetry (tryCount + 1) o.maxTryCount
            if env.retryCanceled (tryCount + 1) then
              let e := endEmit s'
              (evsF ++ [evB] ++ e.1, e.2)
            else
              let r := uploadWorkGo o env file item hash rem' (tryCount + 1) track' false s'
              (evsF ++ [evB] ++ r.1, r.2)
        | 0 =>
            let e := endEmit s'
            (evsF ++ e.1, e.2)

/-- Source private `uploadWork(file, intent)`. -/
def uploadWork (o : OssOptions) (env : Env) (file : File) (tryCount : Nat)
    (item : OssItem) (hash : String) (track : OssTrack) (resume : Bool)
    (s : UpState) : List Ev × UpState :=
  uploadWorkGo o env file item hash (o.maxTryCount - tryCount) tryCount track resume s

/-- Extension resolution of `upload()`:
`(fileExtension || defaultFileExtension || getExt(file.name) || '')
.replace(/^\./, '').toLowerCase()` (JS `||` treats the empty string as
falsy). -/
def firstTruthyStr : List (Option String) → String
  | [] => ""
  | none :: rest => firstTruthyStr rest
  | some s :: rest => if s = "" then firstTruthyStr rest else s

def stripLeadingDot (s : String) : String :=
  match s.data with
  | '.' :: rest => String.mk rest
  | _ => s

def uploadExt (o : OssOptions) (file : File) (p : OssUploadParamOpt) : String :=
  strToLower (stripLeadingDot
    (firstTruthyStr [p.fileExtension, o.fileExtension, some (getExt file.name)]))

/-- Parameter resolution of `upload()`: caller value wins over option
default (JS `||`; the numeric enum values in use are non-zero). -/
def resolveParam (o : OssOptions) (file : File) (p : OssUploadParamOpt) : OssParamR :=
  { fileType := p.fileType.getD o.fileType
  , subCategory := p.subCategory.getD o.subCategory
  , fileExtension := uploadExt o file p }

/-- The fingerprint `upload()` computes for a call. -/
def uploadHash (o : OssOptions) (file : File) (p : OssUploadParamOpt) : String :=
  getHash (getOssItem file (resolveParam o file p))

/-- Source public `upload(file, param)`.  Returns the emitted trace, the
resulting state and — because the source can throw across the async
boundary — an optional escaped exception: `cachedTrack.checkpoint.file =
file` is a TypeError when the cached checkpoint is `null`. -/
def upload (o : OssOptions) (env : Env) (file : File) (p : OssUploadParamOpt)
    (resumeArg : Bool) (s : UpState) : List Ev × UpState × Option JsError :=
  let s := { s with store := cleanTracks env.now o.expireTime s.store }
  let param := resolveParam o file p
  let item := getOssItem file param
  let hash := getHash item
  let cachedTrack := getTrack s.store hash
  let track0 := newTrack item hash param env.now
  match cachedTrack with
  | some ct =>
      let cacheResult := if resumeArg then UseCacheRes.yes else env.useCache file ct
      match cacheResult with
      | UseCacheRes.cancel => ([], s, none)
      | UseCacheRes.yes =>
          match ct.checkpoint with
          | none =>
              ([], s, some (JsError.typeError "cannot set properties of null checkpoint"))
          | some ck =>
              let track := { ct with checkpoint := some { ck with file := some file } }
              let r := uploadWork o env file 0 item hash track true s
              (r.1, r.2, none)
      | UseCacheRes.no =>
          let r := uploadWork o env file 0 item hash track0 false s
          (r.1, r.2, none)
  | none =>
      let r := uploadWork o env file 0 item hash track0 false s
      (r.1, r.2, none)

/-- Source `resume()`: only meaningful while paused; re-enters `upload`
with `resume = true` on the remembered file.  When no file is remembered
the source dereferences `this.file!` inside `upload` and the promise
rejects (after the sweep has already run). -/
def resumeOp (o : OssOptions) (env : Env) (s : UpState) :
    List Ev × UpState × Option JsError :=
  if s.isPausedInner then
    match s.file with
    | some f => upload o env f emptyParam true s
    | none =>
        ([], { s with store := cleanTracks env.now o.expireTime s.store },
          some (JsError.typeError "null file"))
  else ([], s, none)

/-- Source `stop()`: `pause(); end(); clean()`. -/
def stop (s : UpState) : List Ev × UpState :=
  let p := pause s
  let e := endEmit p.2
  (p.1 ++ e.1, clean e.2)

/-! ## Sequences of public operations (for trace invariants) -/

inductive Cmd where
  | cpause
  | cresume
  | cstop
  | cupload (file : File) (p : OssUploadParamOpt) (resumeArg : Bool)

def runCmd (o : OssOptions) (env : Env) (s : UpState) : Cmd → List Ev × UpState
  | Cmd.cpause => pause s
  | Cmd.cstop => stop s
  | Cmd.cresume =>
      let r := resumeOp o env s
      (r.1, r.2.1)
  | Cmd.cupload f p ra =>
      let r := upload o env f p ra s
      (r.1, r.2.1)

def runCmds (o : OssOptions) (env : Env) : List Cmd → UpState → List Ev × UpState
  | [], s => ([], s)
  | c :: cs, s =>
      let r := runCmd o env s c
      let rest := runCmds o env cs r.2
      (r.1 ++ rest.1, rest.2)

/-! ## Trace observation helpers -/

def evsCount (p : Ev → Bool) (evs : List Ev) : Nat :=
  (evs.filter p).length

def isFailEv : Ev → Bool
  | Ev.fail _ => true
  | _ => false

def isPrepareEv : Ev → Bool
  | Ev.prepare => true
  | _ => false

def isEndEv : Ev → Bool
  | Ev.end_ => true
  | _ => false

def isRetryEv : Ev → Bool
  | Ev.beforeRetry _ _ => true
  | _ => false

/-- The payloads of the `isPausedChanged` events of a trace, in order. -/
def pausedVals (evs : List Ev) : List Bool :=
  evs.filterMap fun e =>
    match e with
    | Ev.isPausedChanged v => some v
    | _ => none

/-- `altFrom b l`: `l` alternates, starting with a value different from `b`. -/
def altFrom (b : Bool) : List Bool → Bool
  | [] => true
  | v :: r => (v != b) && altFrom v r

/-- The last element of `l`, or `b` when `l` is empty. -/
def lastFrom (b : Bool) : List Bool → Bool
  | [] => b
  | v :: r => lastFrom v r

/-- No two adjacent elements are equal. -/
def noAdjDup : List Bool → Bool
  | [] => true
  | [_] => true
  | a :: b :: r => (a != b) && noAdjDup (b :: r)

/-- The state component of an attempt outcome. -/
def AttemptOut.state : AttemptOut → UpState
  | AttemptOut.ok _ s => s
  | AttemptOut.canceled _ s => s
  | AttemptOut.failed _ _ _ s => s

/-- The trace component of an attempt outcome. -/
def AttemptOut.evs : AttemptOut → List Ev
  | AttemptOut.ok evs _ => evs
  | AttemptOut.canceled evs _ => evs
  | AttemptOut.failed evs _ _ _ => evs

/-- Whether the store holds, under fingerprint `h`, a Track whose persisted
checkpoint is `null` (the shape `saveTrack` writes between token
acquisition and the first progress callback). -/
def hasNullCpTrack (st : Store) (h : String) : Bool :=
  match getTrack st h with
  | some t => t.checkpoint.isNone
  | none => false

/-! ## Concrete fixtures (used by witnesses and counterexamples) -/

def fileA : File :=
  { name := "a.mp4", size := 5, type := "video/mp4", lastModified := 100, contents := [1, 2, 3] }

/-- Same identity fields as `fileA`, different binary payload. -/
def fileB : File :=
  { name := "a.mp4", size := 5, type := "video/mp4", lastModified := 100, contents := [9] }

def o0 : OssOptions :=
  { fileType := 1, subCategory := 1, fileExtension := none
  , getTokenUrlBase := "https://fapi.jydata.com"
  , getTokenUrlPath := "/file/sts/aiadsFileBucketToken"
  , maxTryCount := 1, retryTimeout := 3000, expireTime := 86400000 }

def tok0 : OssToken :=
  { region := "r", bucket := "b", stsToken := "st", accessKeyId := "id"
  , accessKeySecret := "sec", fileName := "srv/a1.mp4" }

def exFail : ErrObj := { status := some 500, name := some "ServerError" }

def exCancel : ErrObj := { status := some 0, name := some "cancel" }

def ck0 : Checkpoint := { data := 7, file := none }

def resOk : OssResult := { requestUrls := ["http://b/a?uploadId=xyz"] }

/-- Token endpoint always succeeds, transfer resolves after two progress
ticks, resume policy says restart. -/
def envOk : Env :=
  { getToken := fun _ => Except.ok tok0
  , transfer := fun _ => { ticks := [((1 : Rat) / 2, ck0), (1, ck0)], outcome := Except.ok resOk }
  , retryCanceled := fun _ => false
  , useCache := fun _ _ => UseCacheRes.no
  , now := 1000 }

/-- Transfer always rejects with a non-cancellation error; the observer
cancels the first `beforeRetry`; resume policy says resume. -/
def envFailC : Env :=
  { envOk with
    transfer := fun _ => { ticks := [], outcome := Except.error exFail }
  , retryCanceled := fun _ => true
  , useCache := fun _ _ => UseCacheRes.yes }

/-- Transfer always rejects with a non-cancellation error; nobody cancels
the retries. -/
def envFailNC : Env := { envFailC with retryCanceled := fun _ => false }

/-- Transfer rejects with the user-cancellation signature. -/
def envCancel : Env :=
  { envOk with transfer := fun _ => { ticks := [], outcome := Except.error exCancel } }

def paramA : OssParamR := resolveParam o0 fileA emptyParam

def itemA : OssItem := getOssItem fileA paramA

def hashA : String := getHash itemA

def trackA : OssTrack := newTrack itemA hashA paramA 1000

/-- `trackA` with a cached token. -/
def trackTok : OssTrack := { trackA with token := some tok0 }

/-- Same collaborators as `envOk` but a resume policy answering `cancel`. -/
def envCancelDec : Env := { envOk with useCache := fun _ _ => UseCacheRes.cancel }

/-- A state whose store holds a fresh (non-expired) serialized Track for
`fileA`'s fingerprint. -/
def stCached : UpState :=
  { initUp with store := [(trackKey hashA, SVal.strack trackA)] }

/-- A state in the middle of an upload chain: `begin` has fired and the
file/fingerprint are remembered. -/
def stActive : UpState :=
  { initUp with
    hasBegin := true, hash := some hashA, file := some fileA, client := some tok0 }

/-- A non-Track JSON entry under the namespace with an expired timestamp. -/
def vOld : SVal := SVal.sjson (JVal.jobj [("lastTime", JVal.jnum 1)])

/-- A malformed (unparseable) entry under the namespace. -/
def vBad : SVal := SVal.smalformed "not json"

/-- Invariant relating a trace to the paused flag: the `isPausedChanged`
payloads alternate starting from the flag value before the trace, and the
flag value after the trace is the last payload (or the initial value when
none was emitted). -/
def InvP (b : Bool) (evs : List Ev) (b' : Bool) : Prop :=
  altFrom b (pausedVals evs) = true ∧ b' = lastFrom b (pausedVals evs)

/-! ## Store lemmas -/

theorem lookup_filter_ne (k k' : String) (st : Store) (h : k' ≠ k) :
    List.lookup k' (st.filter (fun kv => kv.1 != k)) = List.lookup k' st := by
  induction st with
  | nil => rfl
  | cons a rest ih =>
      obtain ⟨ka, va⟩ := a
      by_cases hk : ka = k
      · subst hk
        have hkk : (k' == ka) = false := by
          simp only [beq_eq_false_iff_ne]
          exact h
        simp [List.filter_cons, List.lookup, hkk, ih]
      · by_cases hka : k' = ka
        · subst hka
          simp [List.filter_cons, bne_iff_ne, hk, List.lookup]
        · have h1 : (k' == ka) = false := by
            simp only [beq_eq_false_iff_ne]
            exact hka
          simp [List.filter_cons, bne_iff_ne, hk, List.lookup, h1, ih]

theorem sget_sput_self (st : Store) (k : String) (v : SVal) :
    sget (sput st k v) k = some v := by
  simp [sget, sput, List.lookup]

theorem sget_sput_ne (st : Store) (k : String) (v : SVal) (k' : String) (h : k' ≠ k) :
    sget (sput st k v) k' = sget st k' := by
  have h1 : (k' == k) = false := by
    simp only [beq_eq_false_iff_ne]
    exact h
  simp only [sget, sput, List.lookup, h1]
  exact lookup_filter_ne k k' st h

theorem sget_sdel_self (st : Store) (k : String) : sget (sdel st k) k = none := by
  induction st with
  | nil => rfl
  | cons a rest ih =>
      obtain ⟨ka, va⟩ := a
      by_cases hk : ka = k
      · subst hk
        simpa [sdel, List.filter_cons] using ih
      · have h1 : (k == ka) = false := by
          simp only [beq_eq_false_iff_ne]
          exact fun hc => hk hc.symm
        simpa [sdel, sget, List.filter_cons, bne_iff_ne, hk, List.lookup, h1] using ih

theorem sget_sdel_ne (st : Store) (k k' : String) (h : k' ≠ k) :
    sget (sdel st k) k' = sget st k' :=
  lookup_filter_ne k k' st h

/-! ## Trace utility lemmas -/

theorem evsCount_append (p : Ev → Bool) (a b : List Ev) :
    evsCount p (a ++ b) = evsCount p a + evsCount p b := by
  simp [evsCount, List.filter_append]

theorem evsCount_eq_zero (p : Ev → Bool) (evs : List Ev)
    (h : ∀ e ∈ evs, p e = false) : evsCount p evs = 0 := by
  simp only [evsCount, List.length_eq_zero]
  rw [List.filter_eq_nil_iff]
  intro a ha
  simp [h a ha]

theorem not_mem_of_all_ne (e : Ev) (evs : List Ev)
    (h : ∀ x ∈ evs, x ≠ e) : e ∉ evs := fun hc => h e hc rfl

/-! ## Component lemmas -/

theorem setIsPaused_evs (s : UpState) (v : Bool) :
    (setIsPaused s v).1 = if v ≠ s.isPausedInner then [Ev.isPausedChanged v] else [] := by
  unfold setIsPaused
  split <;> rfl

theorem setIsPaused_state (s : UpState) (v : Bool) :
    (setIsPaused s v).2 = { s with isPausedInner := v } ∨ (setIsPaused s v).2 = s := by
  unfold setIsPaused
  split
  · exact Or.inl rfl
  · exact Or.inr rfl

theorem setIsPaused_store (s : UpState) (v : Bool) :
    (setIsPaused s v).2.store = s.store := by
  unfold setIsPaused
  split <;> rfl

theorem setIsPaused_mem (s : UpState) (v : Bool) :
    ∀ e ∈ (setIsPaused s v).1, e = Ev.isPausedChanged v := by
  unfold setIsPaused
  split <;> simp

theorem endEmit_evs (s : UpState) :
    (endEmit s).1 = if s.hasBegin then [Ev.end_] else [] := by
  unfold endEmit
  split <;> rfl

theorem endEmit_store (s : UpState) : (endEmit s).2.store = s.store := by
  unfold endEmit
  split <;> rfl

theorem endEmit_hasBegin (s : UpState) : (endEmit s).2.hasBegin = false ∨ (endEmit s).2 = s := by
  unfold endEmit
  split
  · exact Or.inl rfl
  · rename_i h
    exact Or.inr rfl

theorem clean_store_frame (s : UpState) (hash : String) (k : String)
    (hh : s.hash = some hash ∨ s.hash = none) (hk : k ≠ trackKey hash) :
    sget (clean s).store k = sget s.store k := by
  unfold clean delTrack
  rcases hh with hh | hh <;> simp only [hh]
  by_cases hz : hash = ""
  · simp [hz]
  · simp only [hz, if_false]
    exact sget_sdel_ne _ _ _ hk

theorem clean_some_store (s : UpState) (h : String) (hs : s.hash = some h) (hne : h ≠ "") :
    sget (clean s).store (trackKey h) = none := by
  unfold clean delTrack
  simp only [hs, hne, if_false]
  exact sget_sdel_self _ _

theorem sget_sput_isSome (st : Store) (k : String) (v : SVal) (K : String)
    (h : (sget st K).isSome) : (sget (sput st k v) K).isSome := by
  by_cases hK : K = k
  · subst hK
    rw [sget_sput_self]
    rfl
  · rw [sget_sput_ne _ _ _ _ hK]
    exact h

theorem tokenStep_cached (env : Env) (t : Nat) (track : OssTrack) (hash : String)
    (store : Store) (tok : OssToken) (h : track.token = some tok) :
    tokenStep env t true track hash store = ⟨[], Except.ok tok, track, store⟩ := by
  unfold tokenStep
  rw [h]

theorem tokenStep_fresh (env : Env) (t : Nat) (resume : Bool) (track : OssTrack)
    (hash : String) (store : Store) (ret : OssToken)
    (hr : resume = false ∨ track.token = none)
    (hg : env.getToken t = Except.ok ret) :
    tokenStep env t resume track hash store =
      ⟨[Ev.beforeGetToken, Ev.afterGetToken ret], Except.ok ret,
        { track with fileName := ret.fileName, token := some ret },
        saveTrack store { track with fileName := ret.fileName, token := some ret } hash⟩ := by
  unfold tokenStep
  rcases hr with hr | hr
  · subst hr
    cases htk : track.token <;> simp [hg]
  · rw [hr]
    cases resume <;> simp [hg]

theorem tokenStep_err (env : Env) (t : Nat) (resume : Bool) (track : OssTrack)
    (hash : String) (store : Store) (ex : ErrObj)
    (hr : resume = false ∨ track.token = none)
    (hg : env.getToken t = Except.error ex) :
    tokenStep env t resume track hash store =
      ⟨[Ev.beforeGetToken], Except.error ex, track, store⟩ := by
  unfold tokenStep
  rcases hr with hr | hr
  · subst hr
    cases htk : track.token <;> simp [hg]
  · rw [hr]
    cases resume <;> simp [hg]

theorem tokenStep_store_ne (env : Env) (t : Nat) (resume : Bool) (track : OssTrack)
    (hash : String) (store : Store) (k : String) (hk : k ≠ trackKey hash) :
    sget (tokenStep env t resume track hash store).store k = sget store k := by
  unfold tokenStep
  cases resume <;> cases htk : track.token <;> cases hg : env.getToken t <;>
    simp [hg, saveTrack, sget_sput_ne _ _ _ _ hk]

theorem tokenStep_presence (env : Env) (t : Nat) (resume : Bool) (track : OssTrack)
    (hash : String) (store : Store) (K : String)
    (h : (sget store K).isSome) :
    (sget (tokenStep env t resume track hash store).store K).isSome := by
  unfold tokenStep
  cases resume <;> cases htk : track.token <;> cases hg : env.getToken t <;>
    simp [hg, saveTrack, sget_sput_isSome _ _ _ _ h, h]

theorem tokenStep_evs_shape (env : Env) (t : Nat) (resume : Bool) (track : OssTrack)
    (hash : String) (store : Store) :
    ∀ e ∈ (tokenStep env t resume track hash store).evs,
      e = Ev.beforeGetToken ∨ ∃ tk, e = Ev.afterGetToken tk := by
  unfold tokenStep
  cases resume <;> cases htk : track.token <;> cases hg : env.getToken t <;>
    intro e he <;> simp_all <;> tauto

theorem tokenStep_ok_of_getToken_ok (env : Env) (t : Nat) (resume : Bool)
    (track : OssTrack) (hash : String) (store : Store) (tk : OssToken)
    (hg : env.getToken t = Except.ok tk) :
    ∃ tk', (tokenStep env t resume track hash store).res = Except.ok tk' := by
  unfold tokenStep
  cases resume <;> cases htk : track.token <;> simp [hg]

theorem progressTicks_evs (now : Int) (hash : String) (ticks : List (Rat × Checkpoint)) :
    ∀ track store,
      (progressTicks now hash ticks track store).1
        = ticks.map (fun pc => Ev.progress (pc.1 * 100)) := by
  induction ticks with
  | nil => intro track store; rfl
  | cons a rest ih =>
      intro track store
      obtain ⟨p, ck⟩ := a
      simp [progressTicks, ih]

theorem progressTicks_store_ne (now : Int) (hash : String) (ticks : List (Rat × Checkpoint)) :
    ∀ track store k, k ≠ trackKey hash →
      sget (progressTicks now hash ticks track store).2.2 k = sget store k := by
  induction ticks with
  | nil => intro track store k _; rfl
  | cons a rest ih =>
      intro track store k hk
      obtain ⟨p, ck⟩ := a
      simp only [progressTicks]
      rw [ih _ _ _ hk]
      unfold saveTrack
      exact sget_sput_ne _ _ _ _ hk

theorem progressTicks_presence (now : Int) (hash : String) (ticks : List (Rat × Checkpoint)) :
    ∀ track store K, (sget store K).isSome →
      (sget (progressTicks now hash ticks track store).2.2 K).isSome := by
  induction ticks with
  | nil => intro track store K h; exact h
  | cons a rest ih =>
      intro track store K h
      obtain ⟨p, ck⟩ := a
      simp only [progressTicks]
      exact ih _ _ _ (by unfold saveTrack; exact sget_sput_isSome _ _ _ _ h)

/-! ## Attempt lemmas -/

theorem attempt_store_frame (env : Env) (file : File) (t : Nat) (resume : Bool)
    (item : OssItem) (hash : String) (track : OssTrack) (s : UpState) (k : String)
    (hh : t = 0 ∨ s.hash = some hash ∨ s.hash = none) (hk : k ≠ trackKey hash) :
    sget (attempt env file t resume item hash track s).state.store k = sget s.store k := by
  unfold attempt
  by_cases ht : t = 0
  · simp only [ht, if_true, if_false, ite_true, ite_false]
    split
    · -- token fetch rejected
      split <;>
        · simp only [AttemptOut.state]
          rw [tokenStep_store_ne _ _ _ _ _ _ _ hk, setIsPaused_store]
    · -- token obtained
      split
      · -- transfer resolved: state is `clean s2`
        simp only [AttemptOut.state]
        rw [clean_store_frame _ hash _ (Or.inl rfl) hk]
        rw [progressTicks_store_ne _ _ _ _ _ _ hk,
          tokenStep_store_ne _ _ _ _ _ _ _ hk, setIsPaused_store]
      · -- transfer rejected
        split <;>
          · simp only [AttemptOut.state]
            rw [progressTicks_store_ne _ _ _ _ _ _ hk,
              tokenStep_store_ne _ _ _ _ _ _ _ hk, setIsPaused_store]
  · have hh2 : s.hash = some hash ∨ s.hash = none := by
      rcases hh with hh | hh
      · exact absurd hh ht
      · exact hh
    simp only [ht, if_true, if_false, ite_true, ite_false]
    split
    · split <;>
        · simp only [AttemptOut.state]
          rw [tokenStep_store_ne _ _ _ _ _ _ _ hk]
    · split
      · simp only [AttemptOut.state]
        refine Eq.trans (clean_store_frame _ hash k ?_ hk) ?_
        · exact hh2
        · exact (progressTicks_store_ne _ _ _ _ _ _ hk).trans
            (tokenStep_store_ne _ _ _ _ _ _ _ hk)
      · split <;>
          · simp only [AttemptOut.state]
            rw [progressTicks_store_ne _ _ _ _ _ _ hk,
              tokenStep_store_ne _ _ _ _ _ _ _ hk]

theorem setIsPaused_flag (s : UpState) (v : Bool) :
    (setIsPaused s v).2.isPausedInner = v := by
  unfold setIsPaused
  split
  · rfl
  · rename_i h
    simp only [ne_eq, not_not] at h
    exact h.symm

theorem clean_flag (s : UpState) : (clean s).isPausedInner = s.isPausedInner := by
  unfold clean
  rcases s.hash with _ | h <;> simp
  split <;> rfl

theorem clean_hasBegin (s : UpState) : (clean s).hasBegin = s.hasBegin := by
  unfold clean
  rcases s.hash with _ | h <;> simp
  split <;> rfl

/-! ## Paused-trace helpers -/

theorem pausedVals_append (a b : List Ev) :
    pausedVals (a ++ b) = pausedVals a ++ pausedVals b := by
  simp [pausedVals]

theorem pausedVals_eq_nil (evs : List Ev)
    (h : ∀ e ∈ evs, ∀ v, e ≠ Ev.isPausedChanged v) : pausedVals evs = [] := by
  unfold pausedVals
  rw [List.filterMap_eq_nil_iff]
  intro e he
  cases e <;>
    first
    | rfl
    | (rename_i v; exact absurd rfl (h _ he v))

theorem setIsPaused_pausedVals (s : UpState) (v : Bool) :
    pausedVals (setIsPaused s v).1 = if v ≠ s.isPausedInner then [v] else [] := by
  unfold setIsPaused
  split <;> simp_all [pausedVals]

theorem tokenStep_pausedVals (env : Env) (t : Nat) (resume : Bool) (track : OssTrack)
    (hash : String) (store : Store) :
    pausedVals (tokenStep env t resume track hash store).evs = [] := by
  apply pausedVals_eq_nil
  intro e he v
  rcases tokenStep_evs_shape env t resume track hash store e he with h | ⟨tk, h⟩ <;>
    subst h <;> simp

theorem progressTicks_pausedVals (now : Int) (hash : String)
    (ticks : List (Rat × Checkpoint)) (track : OssTrack) (store : Store) :
    pausedVals (progressTicks now hash ticks track store).1 = [] := by
  apply pausedVals_eq_nil
  intro e he v
  rw [progressTicks_evs] at he
  simp only [List.mem_map] at he
  obtain ⟨pc, _, h⟩ := he
  subst h
  simp

theorem altFrom_append (a b : List Bool) :
    ∀ x, altFrom x (a ++ b) = (altFrom x a && altFrom (lastFrom x a) b) := by
  induction a with
  | nil => intro x; simp [altFrom, lastFrom]
  | cons v r ih => intro x; simp [altFrom, lastFrom, ih, Bool.and_assoc]

theorem lastFrom_append (a b : List Bool) :
    ∀ x, lastFrom x (a ++ b) = lastFrom (lastFrom x a) b := by
  induction a with
  | nil => intro x; rfl
  | cons v r ih => intro x; simp [lastFrom, ih]

theorem invP_append {b b1 b2 : Bool} {e1 e2 : List Ev}
    (h1 : InvP b e1 b1) (h2 : InvP b1 e2 b2) : InvP b (e1 ++ e2) b2 := by
  obtain ⟨a1, l1⟩ := h1
  obtain ⟨a2, l2⟩ := h2
  constructor
  · rw [pausedVals_append, altFrom_append, ← l1, a1, a2]
    rfl
  · rw [pausedVals_append, lastFrom_append, ← l1, l2]

theorem invP_of_no_paused {b : Bool} {evs : List Ev}
    (h : pausedVals evs = []) : InvP b evs b := by
  constructor <;> simp [h, altFrom, lastFrom]

theorem alt_noAdjDup : ∀ (l : List Bool) (b : Bool),
    altFrom b l = true → noAdjDup l = true := by
  intro l
  induction l with
  | nil => intro b _; rfl
  | cons v r ih =>
      intro b h
      simp only [altFrom, Bool.and_eq_true] at h
      cases r with
      | nil => rfl
      | cons w r' =>
          have h2 := ih v h.2
          have h3 : (w != v) = true ∧ altFrom w r' = true := by
            have := h.2
            simp only [altFrom, Bool.and_eq_true] at this
            exact this
          have h4 : (v != w) = true := by
            cases v <;> cases w <;> simp_all
          simp only [noAdjDup, Bool.and_eq_true]
          exact ⟨h4, h2⟩

/-! ## Count helpers for event producers -/

theorem evsCount_nil (p : Ev → Bool) : evsCount p [] = 0 := rfl

theorem evsCount_single (p : Ev → Bool) (e : Ev) :
    evsCount p [e] = if p e then 1 else 0 := by
  simp only [evsCount, List.filter]
  split <;> simp_all

theorem evsCount_cons (p : Ev → Bool) (e : Ev) (l : List Ev) :
    evsCount p (e :: l) = (if p e then 1 else 0) + evsCount p l := by
  simp only [evsCount, List.filter_cons]
  split <;> simp_all [Nat.add_comm]

theorem setIsPaused_count_zero (s : UpState) (v : Bool) (p : Ev → Bool)
    (hp : ∀ w, p (Ev.isPausedChanged w) = false) :
    evsCount p (setIsPaused s v).1 = 0 := by
  unfold setIsPaused
  split <;> simp [evsCount, List.filter, hp]

theorem tokenStep_count_zero (env : Env) (t : Nat) (resume : Bool) (track : OssTrack)
    (hash : String) (store : Store) (p : Ev → Bool)
    (hp1 : p Ev.beforeGetToken = false) (hp2 : ∀ tk, p (Ev.afterGetToken tk) = false) :
    evsCount p (tokenStep env t resume track hash store).evs = 0 := by
  apply evsCount_eq_zero
  intro e he
  rcases tokenStep_evs_shape env t resume track hash store e he with h | ⟨tk, h⟩ <;> subst h
  · exact hp1
  · exact hp2 tk

theorem progressTicks_count_zero (now : Int) (hash : String)
    (ticks : List (Rat × Checkpoint)) (track : OssTrack) (store : Store) (p : Ev → Bool)
    (hp : ∀ q, p (Ev.progress q) = false) :
    evsCount p (progressTicks now hash ticks track store).1 = 0 := by
  apply evsCount_eq_zero
  intro e he
  rw [progressTicks_evs] at he
  simp only [List.mem_map] at he
  obtain ⟨pc, _, h⟩ := he
  subst h
  exact hp _

theorem beginEvs_count_zero (s : UpState) (p : Ev → Bool)
    (hp1 : p Ev.begin = false) (hp2 : ∀ v, p (Ev.isPausedChanged v) = false) :
    evsCount p (Ev.begin :: (setIsPaused s false).1) = 0 := by
  apply evsCount_eq_zero
  intro e he
  rcases List.mem_cons.mp he with h | h
  · subst h; exact hp1
  · have := setIsPaused_mem s false e h
    subst this
    exact hp2 _

theorem pausedVals_begin (l : List Ev) : pausedVals (Ev.begin :: l) = pausedVals l := by
  simp [pausedVals]

theorem pausedVals_prepare : pausedVals [Ev.prepare] = [] := rfl

theorem pausedVals_cons_prepare (l : List Ev) :
    pausedVals (Ev.prepare :: l) = pausedVals l := by
  simp [pausedVals]

theorem pausedVals_done (u : String) : pausedVals [Ev.done u] = [] := rfl

theorem setIsPaused_invp (s : UpState) (v : Bool) :
    InvP s.isPausedInner (setIsPaused s v).1 (setIsPaused s v).2.isPausedInner := by
  unfold InvP
  rw [setIsPaused_pausedVals, setIsPaused_flag]
  by_cases h : v = s.isPausedInner
  · simp [h, altFrom, lastFrom]
  · simp [h, altFrom, lastFrom, bne_iff_ne, Ne.symm h]

theorem invP_cons_begin {b b' : Bool} (l : List Ev) (h : InvP b l b') :
    InvP b (Ev.begin :: l) b' := by
  unfold InvP at *
  simpa [pausedVals] using h

/-- The paused-flag invariant holds across one attempt: the only possible
`isPausedChanged` emission is the `setIsPaused(false)` of a first attempt. -/
theorem attempt_invp (env : Env) (file : File) (t : Nat) (resume : Bool)
    (item : OssItem) (hash : String) (track : OssTrack) (s : UpState) :
    InvP s.isPausedInner (attempt env file t resume item hash track s).evs
      (attempt env file t resume item hash track s).state.isPausedInner := by
  unfold attempt
  by_cases ht : t = 0 <;>
    simp only [ht, if_true, if_false, ite_true, ite_false] <;>
    split <;> (try split) <;> (try split) <;>
    · simp only [AttemptOut.evs, AttemptOut.state]
      try rw [clean_flag]
      refine ⟨?_, ?_⟩ <;>
        cases hsp : s.isPausedInner <;>
          simp [pausedVals_append, pausedVals_begin, tokenStep_pausedVals,
            progressTicks_pausedVals, pausedVals_prepare, pausedVals_cons_prepare,
            pausedVals_done, setIsPaused_pausedVals, setIsPaused_flag, hsp,
            altFrom, lastFrom]

theorem attempt_presence (env : Env) (file : File) (t : Nat) (resume : Bool)
    (item : OssItem) (hash : String) (track : OssTrack) (s : UpState) (K : String)
    (hnok : ∀ r, (env.transfer t).outcome ≠ Except.ok r)
    (h : (sget s.store K).isSome) :
    (sget (attempt env file t resume item hash track s).state.store K).isSome := by
  have hnokG : ∀ u, u = t → ∀ r, (env.transfer u).outcome ≠ Except.ok r :=
    fun u hu => hu ▸ hnok
  unfold attempt
  by_cases ht : t = 0 <;>
    simp only [ht, if_true, if_false, ite_true, ite_false] <;>
    split <;> (try split) <;> (try split) <;>
    first
    | exact absurd (by assumption) (hnokG _ (by first | exact ht.symm | rfl) _)
    | · simp only [AttemptOut.state]
        exact progressTicks_presence _ _ _ _ _ _
          (tokenStep_presence _ _ _ _ _ _ _
            (by first | (rw [setIsPaused_store]; exact h) | exact h))
    | · simp only [AttemptOut.state]
        exact tokenStep_presence _ _ _ _ _ _ _
          (by first | (rw [setIsPaused_store]; exact h) | exact h)

/-- No event of an attempt's own trace is a `fail`, `beforeRetry` or `end`
event: those are only emitted by the retry chain around the attempt. -/
theorem attempt_count_zero (env : Env) (file : File) (t : Nat) (resume : Bool)
    (item : OssItem) (hash : String) (track : OssTrack) (s : UpState) (p : Ev → Bool)
    (hbegin : p Ev.begin = false) (hpause : ∀ v, p (Ev.isPausedChanged v) = false)
    (hbgt : p Ev.beforeGetToken = false) (hagt : ∀ tk, p (Ev.afterGetToken tk) = false)
    (hprep : p Ev.prepare = false) (hprog : ∀ q, p (Ev.progress q) = false)
    (hdone : ∀ u, p (Ev.done u) = false) :
    evsCount p (attempt env file t resume item hash track s).evs = 0 := by
  unfold attempt
  by_cases ht : t = 0 <;>
    simp only [ht, if_true, if_false, ite_true, ite_false] <;>
    split <;>
    (try split) <;>
    (try split) <;>
    · simp only [AttemptOut.evs]
      simp [evsCount_append, evsCount_cons, evsCount_single, evsCount_nil,
        tokenStep_count_zero, progressTicks_count_zero, setIsPaused_count_zero,
        hbegin, hpause, hbgt, hagt, hprep, hprog, hdone]

theorem attempt_failed_state (env : Env) (file : File) (t : Nat) (resume : Bool)
    (item : OssItem) (hash : String) (track : OssTrack) (s : UpState)
    (evs : List Ev) (ex : ErrObj) (track' : OssTrack) (s' : UpState)
    (hA : attempt env file t resume item hash track s = AttemptOut.failed evs ex track' s') :
    s'.hash = (if t = 0 then some hash else s.hash)
    ∧ s'.hasBegin = (if t = 0 then true else s.hasBegin) := by
  unfold attempt at hA
  by_cases ht : t = 0 <;>
    simp only [ht, if_true, if_false, ite_true, ite_false] at hA ⊢ <;>
    split at hA <;> (try split at hA) <;> (try split at hA) <;>
    first
    | (injection hA
       done)
    | (injection hA with h1 h2 h3 h4
       subst h4
       exact ⟨rfl, rfl⟩)

theorem exists_pre_of_last (A B C D : List Ev) (x : Ev) :
    ∃ pre, A ++ B ++ C ++ D ++ [x] = pre ++ [x] :=
  ⟨A ++ B ++ C ++ D, rfl⟩

theorem attempt_allFail (env : Env) (file : File) (t : Nat) (resume : Bool)
    (item : OssItem) (hash : String) (track : OssTrack) (s : UpState)
    (ex : ErrObj) (tk : OssToken)
    (hg : env.getToken t = Except.ok tk)
    (herr : (env.transfer t).outcome = Except.error ex)
    (hnc : isCancelError ex = false) :
    ∃ evs track' s',
      attempt env file t resume item hash track s = AttemptOut.failed evs ex track' s'
      ∧ evsCount isPrepareEv evs = 1 := by
  have hgG : ∀ u, u = t → env.getToken u = Except.ok tk := fun u hu => hu.symm ▸ hg
  have herrG : ∀ u, u = t → (env.transfer u).outcome = Except.error ex :=
    fun u hu => hu.symm ▸ herr
  unfold attempt
  by_cases ht : t = 0 <;> simp only [ht, if_true, if_false, ite_true, ite_false]
  · obtain ⟨tk', htok⟩ := tokenStep_ok_of_getToken_ok env 0 resume track hash
      (setIsPaused s false).2.store tk (hgG 0 ht.symm)
    simp only [htok, herrG 0 ht.symm, hnc, Bool.false_eq_true, if_false, ite_false]
    refine ⟨_, _, _, rfl, ?_⟩
    simp [evsCount_append, evsCount_cons, evsCount_single, evsCount_nil,
      tokenStep_count_zero, progressTicks_count_zero, setIsPaused_count_zero,
      isPrepareEv]
  · obtain ⟨tk', htok⟩ := tokenStep_ok_of_getToken_ok env t resume track hash
      s.store tk hg
    simp only [htok, herr, hnc, Bool.false_eq_true, if_false, ite_false]
    refine ⟨_, _, _, rfl, ?_⟩
    simp [evsCount_append, evsCount_cons, evsCount_single, evsCount_nil,
      tokenStep_count_zero, progressTicks_count_zero, setIsPaused_count_zero,
      isPrepareEv]

theorem attempt_success (env : Env) (file : File) (t : Nat) (resume : Bool)
    (item : OssItem) (hash : String) (track : OssTrack) (s : UpState)
    (result : OssResult)
    (hgt : (∃ tk, env.getToken t = Except.ok tk) ∨ (resume = true ∧ track.token.isSome))
    (hres : (env.transfer t).outcome = Except.ok result)
    (hhh : t = 0 ∨ s.hash = some hash) (hne : hash ≠ "") :
    ∃ evs s', attempt env file t resume item hash track s = AttemptOut.ok evs s'
      ∧ (∃ pre, evs = pre ++ [Ev.done (deriveUrl result)])
      ∧ sget s'.store (trackKey hash) = none := by
  have htokAny : ∀ u, u = t → ∀ store,
      ∃ tk', (tokenStep env u resume track hash store).res = Except.ok tk' := by
    intro u hu store
    subst hu
    rcases hgt with ⟨tk, hg⟩ | ⟨hr, htk⟩
    · exact tokenStep_ok_of_getToken_ok env u resume track hash store tk hg
    · subst hr
      obtain ⟨tok, htk2⟩ := Option.isSome_iff_exists.mp htk
      exact ⟨tok, by rw [tokenStep_cached env u track hash store tok htk2]⟩
  have hresG : ∀ u, u = t → (env.transfer u).outcome = Except.ok result :=
    fun u hu => hu.symm ▸ hres
  unfold attempt
  by_cases ht : t = 0 <;> simp only [ht, if_true, if_false, ite_true, ite_false]
  · obtain ⟨tk', htok⟩ := htokAny 0 ht.symm (setIsPaused s false).2.store
    simp only [htok, hresG 0 ht.symm]
    refine ⟨_, _, rfl, exists_pre_of_last _ _ _ _ _, ?_⟩
    exact clean_some_store _ hash rfl hne
  · obtain ⟨tk', htok⟩ := htokAny t rfl s.store
    simp only [htok, hres]
    refine ⟨_, _, rfl, exists_pre_of_last _ _ _ _ _, ?_⟩
    exact clean_some_store _ hash (hhh.resolve_left ht) hne

theorem attempt_cancel (env : Env) (file : File) (t : Nat) (resume : Bool)
    (item : OssItem) (hash : String) (track : OssTrack) (s : UpState) (ex : ErrObj)
    (hgt : (∃ tk, env.getToken t = Except.ok tk) ∨ (resume = true ∧ track.token.isSome))
    (herr : (env.transfer t).outcome = Except.error ex)
    (hc : isCancelError ex = true) :
    ∃ evs s', attempt env file t resume item hash track s = AttemptOut.canceled evs s' := by
  have htokAny : ∀ u, u = t → ∀ store,
      ∃ tk', (tokenStep env u resume track hash store).res = Except.ok tk' := by
    intro u hu store
    subst hu
    rcases hgt with ⟨tk, hg⟩ | ⟨hr, htk⟩
    · exact tokenStep_ok_of_getToken_ok env u resume track hash store tk hg
    · subst hr
      obtain ⟨tok, htk2⟩ := Option.isSome_iff_exists.mp htk
      exact ⟨tok, by rw [tokenStep_cached env u track hash store tok htk2]⟩
  have herrG : ∀ u, u = t → (env.transfer u).outcome = Except.error ex :=
    fun u hu => hu.symm ▸ herr
  unfold attempt
  by_cases ht : t = 0 <;> simp only [ht, if_true, if_false, ite_true, ite_false]
  · obtain ⟨tk', htok⟩ := htokAny 0 ht.symm (setIsPaused s false).2.store
    simp only [htok, herrG 0 ht.symm, hc, if_true, ite_true]
    exact ⟨_, _, rfl⟩
  · obtain ⟨tk', htok⟩ := htokAny t rfl s.store
    simp only [htok, herr, hc, if_true, ite_true]
    exact ⟨_, _, rfl⟩

theorem attempt_ok_transfer (env : Env) (file : File) (t : Nat) (resume : Bool)
    (item : OssItem) (hash : String) (track : OssTrack) (s : UpState)
    (evs : List Ev) (s' : UpState)
    (hA : attempt env file t resume item hash track s = AttemptOut.ok evs s') :
    ∃ r, (env.transfer t).outcome = Except.ok r := by
  unfold attempt at hA
  by_cases ht : t = 0 <;>
    simp only [ht, if_true, if_false, ite_true, ite_false] at hA ⊢ <;>
    split at hA <;> (try split at hA) <;> (try split at hA) <;>
    first
    | (injection hA
       done)
    | exact ⟨_, by assumption⟩

/-! ## Retry-chain (uploadWorkGo) lemmas -/

theorem uploadWorkGo_of_ok (o : OssOptions) (env : Env) (file : File)
    (item : OssItem) (hash : String) (rem t : Nat) (track : OssTrack)
    (resume : Bool) (s : UpState) (evs : List Ev) (s' : UpState)
    (hA : attempt env file t resume item hash track s = AttemptOut.ok evs s') :
    uploadWorkGo o env file item hash rem t track resume s = (evs, s') := by
  unfold uploadWorkGo
  rw [hA]

theorem uploadWorkGo_of_canceled (o : OssOptions) (env : Env) (file : File)
    (item : OssItem) (hash : String) (rem t : Nat) (track : OssTrack)
    (resume : Bool) (s : UpState) (evs : List Ev) (s' : UpState)
    (hA : attempt env file t resume item hash track s = AttemptOut.canceled evs s') :
    uploadWorkGo o env file item hash rem t track resume s = (evs, s') := by
  unfold uploadWorkGo
  rw [hA]

theorem uploadWorkGo_of_failed_zero (o : OssOptions) (env : Env) (file : File)
    (item : OssItem) (hash : String) (t : Nat) (track : OssTrack)
    (resume : Bool) (s : UpState) (evs : List Ev) (ex : ErrObj)
    (track' : OssTrack) (s' : UpState)
    (hA : attempt env file t resume item hash track s
      = AttemptOut.failed evs ex track' s') :
    uploadWorkGo o env file item hash 0 t track resume s
      = (evs ++ [Ev.fail ex] ++ (endEmit s').1, (endEmit s').2) := by
  unfold uploadWorkGo
  rw [hA]

theorem uploadWorkGo_of_failed_canceled (o : OssOptions) (env : Env) (file : File)
    (item : OssItem) (hash : String) (rem' t : Nat) (track : OssTrack)
    (resume : Bool) (s : UpState) (evs : List Ev) (ex : ErrObj)
    (track' : OssTrack) (s' : UpState)
    (hA : attempt env file t resume item hash track s
      = AttemptOut.failed evs ex track' s')
    (hc : env.retryCanceled (t + 1) = true) :
    uploadWorkGo o env file item hash (rem' + 1) t track resume s
      = (evs ++ [Ev.fail ex] ++ [Ev.beforeRetry (t + 1) o.maxTryCount]
          ++ (endEmit s').1, (endEmit s').2) := by
  unfold uploadWorkGo
  rw [hA]
  simp [hc]

theorem uploadWorkGo_of_failed_retry (o : OssOptions) (env : Env) (file : File)
    (item : OssItem) (hash : String) (rem' t : Nat) (track : OssTrack)
    (resume : Bool) (s : UpState) (evs : List Ev) (ex : ErrObj)
    (track' : OssTrack) (s' : UpState)
    (hA : attempt env file t resume item hash track s
      = AttemptOut.failed evs ex track' s')
    (hc : env.retryCanceled (t + 1) = false) :
    uploadWorkGo o env file item hash (rem' + 1) t track resume s
      = (evs ++ [Ev.fail ex] ++ [Ev.beforeRetry (t + 1) o.maxTryCount]
          ++ (uploadWorkGo o env file item hash rem' (t + 1) track' false s').1,
        (uploadWorkGo o env file item hash rem' (t + 1) track' false s').2) := by
  conv_lhs => rw [uploadWorkGo]
  rw [hA]
  simp only [hc, Bool.false_eq_true, if_false, ite_false]

theorem endEmit_flag (s : UpState) : (endEmit s).2.isPausedInner = s.isPausedInner := by
  unfold endEmit
  split <;> rfl

theorem pausedVals_fail (ex : ErrObj) : pausedVals [Ev.fail ex] = [] := rfl

theorem pausedVals_retry (a b : Nat) : pausedVals [Ev.beforeRetry a b] = [] := rfl

theorem endEmit_pausedVals (s : UpState) : pausedVals (endEmit s).1 = [] := by
  unfold endEmit
  split <;> rfl

theorem not_mem_of_count_zero (p : Ev → Bool) (e : Ev) (hp : p e = true)
    (evs : List Ev) (h : evsCount p evs = 0) : e ∉ evs := by
  intro hc
  simp only [evsCount, List.length_eq_zero, List.filter_eq_nil_iff] at h
  exact absurd hp (by simpa using h e hc)

/-- Store frame property of the whole retry chain: keys other than the
intent's own track key are untouched. -/
theorem uploadWorkGo_store_frame (o : OssOptions) (env : Env) (file : File)
    (item : OssItem) (hash : String) :
    ∀ rem t track resume s k, (t = 0 ∨ s.hash = some hash ∨ s.hash = none) →
      k ≠ trackKey hash →
      sget (uploadWorkGo o env file item hash rem t track resume s).2.store k
        = sget s.store k := by
  intro rem
  induction rem with
  | zero =>
      intro t track resume s k hh hk
      rcases hA : attempt env file t resume item hash track s with
        ⟨evs, s'⟩ | ⟨evs, s'⟩ | ⟨evs, ex, track', s'⟩
      · rw [uploadWorkGo_of_ok _ _ _ _ _ _ _ _ _ _ _ _ hA]
        have h2 := attempt_store_frame env file t resume item hash track s k hh hk
        rw [hA] at h2
        exact h2
      · rw [uploadWorkGo_of_canceled _ _ _ _ _ _ _ _ _ _ _ _ hA]
        have h2 := attempt_store_frame env file t resume item hash track s k hh hk
        rw [hA] at h2
        exact h2
      · rw [uploadWorkGo_of_failed_zero _ _ _ _ _ _ _ _ _ _ _ _ _ hA]
        have h2 := attempt_store_frame env file t resume item hash track s k hh hk
        rw [hA] at h2
        rw [endEmit_store]
        exact h2
  | succ rem' ih =>
      intro t track resume s k hh hk
      rcases hA : attempt env file t resume item hash track s with
        ⟨evs, s'⟩ | ⟨evs, s'⟩ | ⟨evs, ex, track', s'⟩
      · rw [uploadWorkGo_of_ok _ _ _ _ _ _ _ _ _ _ _ _ hA]
        have h2 := attempt_store_frame env file t resume item hash track s k hh hk
        rw [hA] at h2
        exact h2
      · rw [uploadWorkGo_of_canceled _ _ _ _ _ _ _ _ _ _ _ _ hA]
        have h2 := attempt_store_frame env file t resume item hash track s k hh hk
        rw [hA] at h2
        exact h2
      · have h2 := attempt_store_frame env file t resume item hash track s k hh hk
        rw [hA] at h2
        have hh' : (t + 1) = 0 ∨ s'.hash = some hash ∨ s'.hash = none := by
          have h3 := (attempt_failed_state env file t resume item hash track s
            evs ex track' s' hA).1
          by_cases ht : t = 0
          · right; left
            rw [h3, if_pos ht]
          · rcases hh with hh | hh | hh
            · exact absurd hh ht
            · right; left
              rw [h3, if_neg ht]
              exact hh
            · right; right
              rw [h3, if_neg ht]
              exact hh
        by_cases hc : env.retryCanceled (t + 1) = true
        · rw [uploadWorkGo_of_failed_canceled _ _ _ _ _ _ _ _ _ _ _ _ _ _ hA hc]
          rw [endEmit_store]
          exact h2
        · rw [uploadWorkGo_of_failed_retry _ _ _ _ _ _ _ _ _ _ _ _ _ _ hA
            (by simpa using hc)]
          rw [ih (t + 1) track' false s' k hh' hk]
          exact h2

/-- When no transfer ever resolves, the chain never removes a present key
(the Track is never deleted by failure handling). -/
theorem uploadWorkGo_presence (o : OssOptions) (env : Env) (file : File)
    (item : OssItem) (hash : String)
    (hnok : ∀ u r, (env.transfer u).outcome ≠ Except.ok r) :
    ∀ rem t track resume s K, (sget s.store K).isSome →
      (sget (uploadWorkGo o env file item hash rem t track resume s).2.store K).isSome := by
  intro rem
  induction rem with
  | zero =>
      intro t track resume s K h
      rcases hA : attempt env file t resume item hash track s with
        ⟨evs, s'⟩ | ⟨evs, s'⟩ | ⟨evs, ex, track', s'⟩
      · obtain ⟨r, hr⟩ := attempt_ok_transfer env file t resume item hash track s
          evs s' hA
        exact absurd hr (hnok t r)
      · rw [uploadWorkGo_of_canceled _ _ _ _ _ _ _ _ _ _ _ _ hA]
        have h2 := attempt_presence env file t resume item hash track s K (hnok t) h
        rw [hA] at h2
        exact h2
      · rw [uploadWorkGo_of_failed_zero _ _ _ _ _ _ _ _ _ _ _ _ _ hA]
        have h2 := attempt_presence env file t resume item hash track s K (hnok t) h
        rw [hA] at h2
        rw [endEmit_store]
        exact h2
  | succ rem' ih =>
      intro t track resume s K h
      rcases hA : attempt env file t resume item hash track s with
        ⟨evs, s'⟩ | ⟨evs, s'⟩ | ⟨evs, ex, track', s'⟩
      · obtain ⟨r, hr⟩ := attempt_ok_transfer env file t resume item hash track s
          evs s' hA
        exact absurd hr (hnok t r)
      · rw [uploadWorkGo_of_canceled _ _ _ _ _ _ _ _ _ _ _ _ hA]
        have h2 := attempt_presence env file t resume item hash track s K (hnok t) h
        rw [hA] at h2
        exact h2
      · have h2 := attempt_presence env file t resume item hash track s K (hnok t) h
        rw [hA] at h2
        by_cases hc : env.retryCanceled (t + 1) = true
        · rw [uploadWorkGo_of_failed_canceled _ _ _ _ _ _ _ _ _ _ _ _ _ _ hA hc]
          rw [endEmit_store]
          exact h2
        · rw [uploadWorkGo_of_failed_retry _ _ _ _ _ _ _ _ _ _ _ _ _ _ hA
            (by simpa using hc)]
          exact ih (t + 1) track' false s' K h2

/-- Retry bound: when the token endpoint always succeeds, the transfer
always rejects with a non-cancellation error and no observer cancels a
retry, a chain entered with `rem` remaining retries performs exactly
`rem + 1` attempts, emitting one `prepare` and one `fail` per attempt, and
its trace ends with the last attempt's `fail` followed by `end`. -/
theorem uploadWorkGo_allFail (o : OssOptions) (env : Env) (file : File)
    (item : OssItem) (hash : String)
    (hfail : ∀ u, ∃ ex, (env.transfer u).outcome = Except.error ex
      ∧ isCancelError ex = false)
    (htok : ∀ u, ∃ tk, env.getToken u = Except.ok tk)
    (hnc : ∀ u, env.retryCanceled u = false) :
    ∀ rem t track resume s, (t = 0 ∨ s.hasBegin = true) →
      evsCount isFailEv (uploadWorkGo o env file item hash rem t track resume s).1
        = rem + 1
      ∧ evsCount isPrepareEv (uploadWorkGo o env file item hash rem t track resume s).1
        = rem + 1
      ∧ ∃ pre ex, isCancelError ex = false
          ∧ (uploadWorkGo o env file item hash rem t track resume s).1
            = pre ++ [Ev.fail ex, Ev.end_] := by
  intro rem
  induction rem with
  | zero =>
      intro t track resume s hb
      obtain ⟨ex, herr, hncl⟩ := hfail t
      obtain ⟨tk, hg⟩ := htok t
      obtain ⟨evs, track', s', hA, hprep⟩ :=
        attempt_allFail env file t resume item hash track s ex tk hg herr hncl
      have hfz := attempt_count_zero env file t resume item hash track s isFailEv
        rfl (fun _ => rfl) rfl (fun _ => rfl) rfl (fun _ => rfl) (fun _ => rfl)
      have hpz := attempt_count_zero env file t resume item hash track s isEndEv
        rfl (fun _ => rfl) rfl (fun _ => rfl) rfl (fun _ => rfl) (fun _ => rfl)
      rw [hA] at hfz hpz
      simp only [AttemptOut.evs] at hfz hpz
      have hhb : s'.hasBegin = true := by
        have h3 := (attempt_failed_state env file t resume item hash track s
          evs ex track' s' hA).2
        rcases hb with hb | hb
        · rw [h3, if_pos hb]
        · by_cases ht : t = 0
          · rw [h3, if_pos ht]
          · rw [h3, if_neg ht]
            exact hb
      have hend : (endEmit s').1 = [Ev.end_] := by
        rw [endEmit_evs, hhb]
        rfl
      rw [uploadWorkGo_of_failed_zero _ _ _ _ _ _ _ _ _ _ _ _ _ hA, hend]
      refine ⟨?_, ?_, evs, ex, hncl, ?_⟩
      · simp [evsCount_append, evsCount_cons, evsCount_single, evsCount_nil,
          hfz, isFailEv, isEndEv]
      · simp [evsCount_append, evsCount_cons, evsCount_single, evsCount_nil,
          hprep, isPrepareEv]
      · simp
  | succ rem' ih =>
      intro t track resume s hb
      obtain ⟨ex, herr, hncl⟩ := hfail t
      obtain ⟨tk, hg⟩ := htok t
      obtain ⟨evs, track', s', hA, hprep⟩ :=
        attempt_allFail env file t resume item hash track s ex tk hg herr hncl
      have hfz := attempt_count_zero env file t resume item hash track s isFailEv
        rfl (fun _ => rfl) rfl (fun _ => rfl) rfl (fun _ => rfl) (fun _ => rfl)
      rw [hA] at hfz
      simp only [AttemptOut.evs] at hfz
      have hhb : s'.hasBegin = true := by
        have h3 := (attempt_failed_state env file t resume item hash track s
          evs ex track' s' hA).2
        rcases hb with hb | hb
        · rw [h3, if_pos hb]
        · by_cases ht : t = 0
          · rw [h3, if_pos ht]
          · rw [h3, if_neg ht]
            exact hb
      obtain ⟨ihf, ihp, pre', ex', hncl', hsuf⟩ :=
        ih (t + 1) track' false s' (Or.inr hhb)
      rw [uploadWorkGo_of_failed_retry _ _ _ _ _ _ _ _ _ _ _ _ _ _ hA (hnc (t + 1))]
      refine ⟨?_, ?_, evs ++ [Ev.fail ex] ++ [Ev.beforeRetry (t + 1) o.maxTryCount]
        ++ pre', ex', hncl', ?_⟩
      · simp [evsCount_append, evsCount_cons, evsCount_single, evsCount_nil,
          hfz, ihf, isFailEv, isRetryEv]
        omega
      · simp [evsCount_append, evsCount_cons, evsCount_single, evsCount_nil,
          hprep, ihp, isPrepareEv, isRetryEv, isFailEv]
        omega
      · rw [hsuf]
        simp

/-- The paused-flag invariant holds across the whole retry chain. -/
theorem uploadWorkGo_invp (o : OssOptions) (env : Env) (file : File)
    (item : OssItem) (hash : String) :
    ∀ rem t track resume s,
      InvP s.isPausedInner (uploadWorkGo o env file item hash rem t track resume s).1
        (uploadWorkGo o env file item hash rem t track resume s).2.isPausedInner := by
  intro rem
  induction rem with
  | zero =>
      intro t track resume s
      rcases hA : attempt env file t resume item hash track s with
        ⟨evs, s'⟩ | ⟨evs, s'⟩ | ⟨evs, ex, track', s'⟩
      · rw [uploadWorkGo_of_ok _ _ _ _ _ _ _ _ _ _ _ _ hA]
        have h2 := attempt_invp env file t resume item hash track s
        rw [hA] at h2
        exact h2
      · rw [uploadWorkGo_of_canceled _ _ _ _ _ _ _ _ _ _ _ _ hA]
        have h2 := attempt_invp env file t resume item hash track s
        rw [hA] at h2
        exact h2
      · rw [uploadWorkGo_of_failed_zero _ _ _ _ _ _ _ _ _ _ _ _ _ hA]
        have h2 := attempt_invp env file t resume item hash track s
        rw [hA] at h2
        simp only [AttemptOut.evs, AttemptOut.state] at h2
        rw [endEmit_flag]
        exact invP_append (invP_append h2 (invP_of_no_paused (pausedVals_fail ex)))
          (invP_of_no_paused (endEmit_pausedVals s'))
  | succ rem' ih =>
      intro t track resume s
      rcases hA : attempt env file t resume item hash track s with
        ⟨evs, s'⟩ | ⟨evs, s'⟩ | ⟨evs, ex, track', s'⟩
      · rw [uploadWorkGo_of_ok _ _ _ _ _ _ _ _ _ _ _ _ hA]
        have h2 := attempt_invp env file t resume item hash track s
        rw [hA] at h2
        exact h2
      · rw [uploadWorkGo_of_canceled _ _ _ _ _ _ _ _ _ _ _ _ hA]
        have h2 := attempt_invp env file t resume item hash track s
        rw [hA] at h2
        exact h2
      · have h2 := attempt_invp env file t resume item hash track s
        rw [hA] at h2
        simp only [AttemptOut.evs, AttemptOut.state] at h2
        by_cases hc : env.retryCanceled (t + 1) = true
        · rw [uploadWorkGo_of_failed_canceled _ _ _ _ _ _ _ _ _ _ _ _ _ _ hA hc]
          rw [endEmit_flag]
          exact invP_append (invP_append
            (invP_append h2 (invP_of_no_paused (pausedVals_fail ex)))
            (invP_of_no_paused (pausedVals_retry (t + 1) o.maxTryCount)))
            (invP_of_no_paused (endEmit_pausedVals s'))
        · rw [uploadWorkGo_of_failed_retry _ _ _ _ _ _ _ _ _ _ _ _ _ _ hA
            (by simpa using hc)]
          exact invP_append (invP_append
            (invP_append h2 (invP_of_no_paused (pausedVals_fail ex)))
            (invP_of_no_paused (pausedVals_retry (t + 1) o.maxTryCount)))
            (ih (t + 1) track' false s')

/-! ## upload() and control-operation lemmas -/

/-- `upload()` touches no stored key other than its own track key: whatever
the collaborators do, every other key still reads as it does right after
the initial expiry sweep. -/
theorem upload_store_frame (o : OssOptions) (env : Env) (file : File)
    (p : OssUploadParamOpt) (ra : Bool) (s : UpState) (k : String)
    (hk : k ≠ trackKey (uploadHash o file p)) :
    sget (upload o env file p ra s).2.1.store k
      = sget (cleanTracks env.now o.expireTime s.store) k := by
  simp only [upload, uploadWork]
  split <;> (try split) <;> (try split) <;>
    first
    | rfl
    | exact uploadWorkGo_store_frame o env file _ _ _ 0 _ _ _ k (Or.inl rfl) hk

theorem uploadWorkGo_invp' (o : OssOptions) (env : Env) (file : File)
    (item : OssItem) (hash : String) (rem t : Nat) (track : OssTrack)
    (resume : Bool) (s : UpState) (b : Bool) (hb : b = s.isPausedInner) :
    InvP b (uploadWorkGo o env file item hash rem t track resume s).1
      (uploadWorkGo o env file item hash rem t track resume s).2.isPausedInner :=
  hb ▸ uploadWorkGo_invp o env file item hash rem t track resume s

theorem upload_invp (o : OssOptions) (env : Env) (file : File)
    (p : OssUploadParamOpt) (ra : Bool) (s : UpState) :
    InvP s.isPausedInner (upload o env file p ra s).1
      (upload o env file p ra s).2.1.isPausedInner := by
  simp only [upload, uploadWork]
  split <;> (try split) <;> (try split) <;>
    first
    | exact invP_of_no_paused rfl
    | exact uploadWorkGo_invp' o env file _ _ _ 0 _ _ _ _ rfl

theorem setIsPaused_client (s : UpState) (v : Bool) :
    (setIsPaused s v).2.client = s.client := by
  unfold setIsPaused
  split <;> rfl

theorem setIsPaused_hash (s : UpState) (v : Bool) :
    (setIsPaused s v).2.hash = s.hash := by
  unfold setIsPaused
  split <;> rfl

theorem setIsPaused_hasBegin (s : UpState) (v : Bool) :
    (setIsPaused s v).2.hasBegin = s.hasBegin := by
  unfold setIsPaused
  split <;> rfl

theorem pause_store (s : UpState) : (pause s).2.store = s.store := by
  unfold pause
  cases hc : s.client
  · rfl
  · by_cases hp : s.isPausedInner = true <;> simp [hp, setIsPaused_store]

theorem pause_client (s : UpState) : (pause s).2.client = s.client := by
  unfold pause
  cases hc : s.client
  · simp [hc]
  · by_cases hp : s.isPausedInner = true <;> simp [hp, setIsPaused_client, hc]

theorem pause_hash (s : UpState) : (pause s).2.hash = s.hash := by
  unfold pause
  cases hc : s.client
  · rfl
  · by_cases hp : s.isPausedInner = true <;> simp [hp, setIsPaused_hash]

theorem pause_hasBegin (s : UpState) : (pause s).2.hasBegin = s.hasBegin := by
  unfold pause
  cases hc : s.client
  · rfl
  · by_cases hp : s.isPausedInner = true <;> simp [hp, setIsPaused_hasBegin]

/-- `pause()` with no transfer client is a no-op: no state change, no event. -/
theorem pause_noclient (s : UpState) (h : s.client = none) : pause s = ([], s) := by
  unfold pause
  rw [h]

/-- `pause()` while already paused is a no-op: no state change, no event. -/
theorem pause_paused (s : UpState) (h : s.isPausedInner = true) : pause s = ([], s) := by
  unfold pause
  cases hc : s.client
  · rfl
  · simp [h]

theorem pause_flag_some (s : UpState) (c : OssToken) (h : s.client = some c) :
    (pause s).2.isPausedInner = true := by
  unfold pause
  rw [h]
  by_cases hp : s.isPausedInner = true <;> simp [hp, setIsPaused_flag]

theorem pause_count_zero (s : UpState) (p : Ev → Bool)
    (hp : ∀ v, p (Ev.isPausedChanged v) = false) :
    evsCount p (pause s).1 = 0 := by
  unfold pause
  cases hc : s.client
  · rfl
  · by_cases hpz : s.isPausedInner = true <;>
      simp [hpz, setIsPaused_count_zero s true p hp, evsCount_nil]

theorem pause_invp (s : UpState) :
    InvP s.isPausedInner (pause s).1 (pause s).2.isPausedInner := by
  unfold pause
  cases hc : s.client
  · exact invP_of_no_paused rfl
  · by_cases hpz : s.isPausedInner = true
    · rw [if_pos hpz]
      exact invP_of_no_paused rfl
    · rw [if_neg hpz]
      exact setIsPaused_invp s true

theorem endEmit_client (s : UpState) : (endEmit s).2.client = s.client := by
  unfold endEmit
  split <;> rfl

theorem endEmit_hash (s : UpState) : (endEmit s).2.hash = s.hash := by
  unfold endEmit
  split <;> rfl

theorem clean_client (s : UpState) : (clean s).client = s.client := by
  unfold clean
  rcases s.hash with _ | h <;> simp
  split <;> rfl

theorem clean_hash_none (s : UpState) (h : String) (hs : s.hash = some h)
    (hne : h ≠ "") : (clean s).hash = none := by
  unfold clean
  simp only [hs, hne, if_false]

theorem clean_hash_of_none (s : UpState) (hs : s.hash = none) : clean s = s := by
  unfold clean
  simp only [hs]

/-- `resume()` when not paused is a no-op: no state change, no event. -/
theorem resumeOp_notPaused (o : OssOptions) (env : Env) (s : UpState)
    (h : s.isPausedInner = false) : resumeOp o env s = ([], s, none) := by
  unfold resumeOp
  rw [h]
  rfl

/-- `resume()` while paused re-invokes `upload` with `resume = true` on the
remembered file. -/
theorem resumeOp_paused (o : OssOptions) (env : Env) (s : UpState) (f : File)
    (hp : s.isPausedInner = true) (hf : s.file = some f) :
    resumeOp o env s = upload o env f emptyParam true s := by
  unfold resumeOp
  rw [hp, hf]
  rfl

theorem resumeOp_invp (o : OssOptions) (env : Env) (s : UpState) :
    InvP s.isPausedInner (resumeOp o env s).1 (resumeOp o env s).2.1.isPausedInner := by
  unfold resumeOp
  by_cases hp : s.isPausedInner = true
  · rw [if_pos hp]
    cases hf : s.file
    · exact invP_of_no_paused rfl
    · exact upload_invp o env _ emptyParam true s
  · rw [if_neg hp]
    exact invP_of_no_paused rfl

theorem stop_invp (s : UpState) :
    InvP s.isPausedInner (stop s).1 (stop s).2.isPausedInner := by
  unfold stop
  simp only [clean_flag]
  have h2 : InvP (pause s).2.isPausedInner (endEmit (pause s).2).1
      (endEmit (pause s).2).2.isPausedInner := by
    rw [endEmit_flag]
    exact invP_of_no_paused (endEmit_pausedVals _)
  exact invP_append (pause_invp s) h2

theorem runCmd_invp (o : OssOptions) (env : Env) (s : UpState) (c : Cmd) :
    InvP s.isPausedInner (runCmd o env s c).1 (runCmd o env s c).2.isPausedInner := by
  cases c with
  | cpause => exact pause_invp s
  | cstop => exact stop_invp s
  | cresume => exact resumeOp_invp o env s
  | cupload f p ra => exact upload_invp o env f p ra s

theorem runCmds_invp (o : OssOptions) (env : Env) :
    ∀ (cmds : List Cmd) (s : UpState),
      InvP s.isPausedInner (runCmds o env cmds s).1
        (runCmds o env cmds s).2.isPausedInner := by
  intro cmds
  induction cmds with
  | nil => intro s; exact invP_of_no_paused rfl
  | cons c cs ih =>
      intro s
      simp only [runCmds]
      exact invP_append (runCmd_invp o env s c) (ih _)

theorem endEmit_hasBegin_false (s : UpState) : (endEmit s).2.hasBegin = false := by
  unfold endEmit
  split
  · rfl
  · rename_i h
    simpa using h

theorem endEmit_of_false (s : UpState) (h : s.hasBegin = false) :
    endEmit s = ([], s) := by
  unfold endEmit
  rw [h]
  rfl

theorem sweepable_iff (now expireTime : Int) (k : String) (v : SVal) :
    sweepable now expireTime k v = true ↔
      (strStartsWith k storageKeyPfx = true
        ∧ ∃ lt, svalLastTime v = some lt ∧ 0 < lt ∧ now - lt > expireTime) := by
  unfold sweepable
  cases hsv : svalLastTime v <;>
    simp [hsv, Bool.and_eq_true, decide_eq_true_iff, and_assoc]

/-! ## Claims -/

/-- Claim C1 (counterexample): a run in which the storage transfer
primitive resolves successfully emits `done` with the derived URL but
emits NO `end` event afterwards — the success path of `uploadWork` calls
`clean()` and returns without `this.end()`, so the claim's "then emits an
`end` event" is false on the code. -/
theorem claim1_no_end_counterexample :
    Ev.done "http://b/a" ∈ (upload o0 envOk fileA emptyParam false initUp).1
    ∧ Ev.end_ ∉ (upload o0 envOk fileA emptyParam false initUp).1 := by
  constructor <;> decide

/-- Claim C1 (amended): for every attempt whose transfer resolves
successfully (token cached or token endpoint succeeding), the engine's
trace ends with a `done` event carrying the URL derived from the transfer
result, no `end` event is emitted anywhere in that trace, and afterwards
the Track Store entry for the upload's fingerprint is absent. -/
theorem claim1_success_done_no_end (o : OssOptions) (env : Env) (file : File)
    (t : Nat) (item : OssItem) (hash : String) (track : OssTrack) (resume : Bool)
    (s : UpState) (result : OssResult)
    (hgt : (∃ tk, env.getToken t = Except.ok tk) ∨ (resume = true ∧ track.token.isSome))
    (hres : (env.transfer t).outcome = Except.ok result)
    (hhh : t = 0 ∨ s.hash = some hash) (hne : hash ≠ "") :
    (∃ pre, (uploadWork o env file t item hash track resume s).1
        = pre ++ [Ev.done (deriveUrl result)])
    ∧ Ev.end_ ∉ (uploadWork o env file t item hash track resume s).1
    ∧ sget (uploadWork o env file t item hash track resume s).2.store (trackKey hash)
        = none := by
  obtain ⟨evs, s', hA, hpre, hstore⟩ :=
    attempt_success env file t resume item hash track s result hgt hres hhh hne
  have hgo : uploadWork o env file t item hash track resume s = (evs, s') := by
    unfold uploadWork
    exact uploadWorkGo_of_ok _ _ _ _ _ _ _ _ _ _ _ _ hA
  rw [hgo]
  have hez := attempt_count_zero env file t resume item hash track s isEndEv
    rfl (fun _ => rfl) rfl (fun _ => rfl) rfl (fun _ => rfl) (fun _ => rfl)
  rw [hA] at hez
  simp only [AttemptOut.evs] at hez
  exact ⟨hpre, not_mem_of_count_zero isEndEv Ev.end_ rfl evs hez, hstore⟩

theorem claim1_success_done_no_end_witness :
    (∃ pre, (uploadWork o0 envOk fileA 0 itemA hashA trackA false initUp).1
        = pre ++ [Ev.done (deriveUrl resOk)])
    ∧ Ev.end_ ∉ (uploadWork o0 envOk fileA 0 itemA hashA trackA false initUp).1
    ∧ sget (uploadWork o0 envOk fileA 0 itemA hashA trackA false initUp).2.store
        (trackKey hashA) = none :=
  claim1_success_done_no_end o0 envOk fileA 0 itemA hashA trackA false initUp resOk
    (Or.inl ⟨tok0, rfl⟩) rfl (Or.inl rfl) (by decide)

/-- Claim C2: when the transfer primitive rejects on every invocation with
a non-cancellation error, the token endpoint succeeds, and no observer
cancels a `beforeRetry` event, a chain entered at `tryCount = 0` performs
exactly `maxTryCount + 1` attempts (one `prepare` and one `fail` each) and
its trace ends with the last attempt's `fail` followed by `end`, after
which nothing further is scheduled. -/
theorem claim2_retry_bound (o : OssOptions) (env : Env) (file : File)
    (item : OssItem) (hash : String) (track : OssTrack) (resume : Bool) (s : UpState)
    (hfail : ∀ u, ∃ ex, (env.transfer u).outcome = Except.error ex
      ∧ isCancelError ex = false)
    (htok : ∀ u, ∃ tk, env.getToken u = Except.ok tk)
    (hnc : ∀ u, env.retryCanceled u = false) :
    evsCount isFailEv (uploadWork o env file 0 item hash track resume s).1
      = o.maxTryCount + 1
    ∧ evsCount isPrepareEv (uploadWork o env file 0 item hash track resume s).1
      = o.maxTryCount + 1
    ∧ ∃ pre ex, isCancelError ex = false
        ∧ (uploadWork o env file 0 item hash track resume s).1
          = pre ++ [Ev.fail ex, Ev.end_] := by
  unfold uploadWork
  have h2 := uploadWorkGo_allFail o env file item hash hfail htok hnc
    (o.maxTryCount - 0) 0 track resume s (Or.inl rfl)
  simpa using h2

theorem claim2_retry_bound_witness :
    evsCount isFailEv (uploadWork o0 envFailNC fileA 0 itemA hashA trackA false initUp).1
      = o0.maxTryCount + 1
    ∧ evsCount isPrepareEv
        (uploadWork o0 envFailNC fileA 0 itemA hashA trackA false initUp).1
      = o0.maxTryCount + 1
    ∧ ∃ pre ex, isCancelError ex = false
        ∧ (uploadWork o0 envFailNC fileA 0 itemA hashA trackA false initUp).1
          = pre ++ [Ev.fail ex, Ev.end_] :=
  claim2_retry_bound o0 envFailNC fileA itemA hashA trackA false initUp
    (fun _ => ⟨exFail, rfl, rfl⟩) (fun _ => ⟨tok0, rfl⟩) (fun _ => rfl)

/-- Claim C3 (code bug): the code itself persists a Track whose checkpoint
is `null` (after token acquisition, before the first progress callback);
a later `upload()` of the same file on which the resume policy answers
`yes` executes `cachedTrack.checkpoint.file = file` on that `null`
checkpoint and the `upload()` promise rejects with a TypeError, emitting
no event — contradicting "never rejects or throws across its async
boundary". -/
theorem claim3_null_checkpoint_throw :
    hasNullCpTrack (upload o0 envFailC fileA emptyParam false initUp).2.1.store hashA
      = true
    ∧ (upload o0 envFailC fileA emptyParam false
        (upload o0 envFailC fileA emptyParam false initUp).2.1).1 = []
    ∧ (upload o0 envFailC fileA emptyParam false
        (upload o0 envFailC fileA emptyParam false initUp).2.1).2.2
      = some (JsError.typeError "cannot set properties of null checkpoint") := by
  refine ⟨?_, ?_, ?_⟩ <;> rfl

/-- Claim C4: token acquisition per attempt.  With `resume = true` and a
cached Token, `tokenStep` uses the cached Token, emits nothing, leaves
track and store untouched, and is independent of the Token Provider.
Otherwise, on a successful fetch it emits `beforeGetToken`, writes the
Token and the server-assigned remote file name into the Track, persists
the Track (the store update happens before the transfer stage runs in
`attempt`), and then emits `afterGetToken`. -/
theorem claim4_token_reuse_and_fetch :
    (∀ (env : Env) (t : Nat) (track : OssTrack) (hash : String) (store : Store)
        (tok : OssToken), track.token = some tok →
      tokenStep env t true track hash store = ⟨[], Except.ok tok, track, store⟩)
    ∧ (∀ (env : Env) (t : Nat) (resume : Bool) (track : OssTrack) (hash : String)
        (store : Store) (ret : OssToken),
        (resume = false ∨ track.token = none) → env.getToken t = Except.ok ret →
        tokenStep env t resume track hash store =
          ⟨[Ev.beforeGetToken, Ev.afterGetToken ret], Except.ok ret,
            { track with fileName := ret.fileName, token := some ret },
            saveTrack store { track with fileName := ret.fileName, token := some ret }
              hash⟩) :=
  ⟨tokenStep_cached, tokenStep_fresh⟩

theorem claim4_token_reuse_and_fetch_witness :
    tokenStep envFailC 0 true trackTok hashA [] = ⟨[], Except.ok tok0, trackTok, []⟩
    ∧ tokenStep envOk 0 false trackA hashA [] =
        ⟨[Ev.beforeGetToken, Ev.afterGetToken tok0], Except.ok tok0,
          { trackA with fileName := tok0.fileName, token := some tok0 },
          saveTrack [] { trackA with fileName := tok0.fileName, token := some tok0 }
            hashA⟩ :=
  ⟨claim4_token_reuse_and_fetch.1 envFailC 0 trackTok hashA [] tok0 rfl,
    claim4_token_reuse_and_fetch.2 envOk 0 false trackA hashA [] tok0 (Or.inl rfl) rfl⟩

/-- Claim C5: an attempt that rejects with the user-cancellation signature
(status 0, name `cancel`) terminates silently — the chain returns the
attempt's own trace and state unchanged, with no `fail`, no `beforeRetry`
and no `end` event; and, whatever the errors, a failing chain never
deletes a present Track Store entry. -/
theorem claim5_cancel_silent_no_delete :
    (∀ (o : OssOptions) (env : Env) (file : File) (t : Nat) (resume : Bool)
        (item : OssItem) (hash : String) (track : OssTrack) (s : UpState) (ex : ErrObj),
      ((∃ tk, env.getToken t = Except.ok tk) ∨ (resume = true ∧ track.token.isSome)) →
      (env.transfer t).outcome = Except.error ex →
      isCancelError ex = true →
      ∃ evs s', attempt env file t resume item hash track s = AttemptOut.canceled evs s'
        ∧ uploadWork o env file t item hash track resume s = (evs, s')
        ∧ evsCount isFailEv evs = 0 ∧ evsCount isRetryEv evs = 0
        ∧ evsCount isEndEv evs = 0)
    ∧ (∀ (o : OssOptions) (env : Env) (file : File) (item : OssItem) (hash : String)
        (t : Nat) (track : OssTrack) (resume : Bool) (s : UpState) (K : String),
      (∀ u r, (env.transfer u).outcome ≠ Except.ok r) →
      (sget s.store K).isSome →
      (sget (uploadWork o env file t item hash track resume s).2.store K).isSome) := by
  constructor
  · intro o env file t resume item hash track s ex hgt herr hc
    obtain ⟨evs, s', hA⟩ :=
      attempt_cancel env file t resume item hash track s ex hgt herr hc
    have hf := attempt_count_zero env file t resume item hash track s isFailEv
      rfl (fun _ => rfl) rfl (fun _ => rfl) rfl (fun _ => rfl) (fun _ => rfl)
    have hr := attempt_count_zero env file t resume item hash track s isRetryEv
      rfl (fun _ => rfl) rfl (fun _ => rfl) rfl (fun _ => rfl) (fun _ => rfl)
    have he := attempt_count_zero env file t resume item hash track s isEndEv
      rfl (fun _ => rfl) rfl (fun _ => rfl) rfl (fun _ => rfl) (fun _ => rfl)
    rw [hA] at hf hr he
    simp only [AttemptOut.evs] at hf hr he
    refine ⟨evs, s', hA, ?_, hf, hr, he⟩
    unfold uploadWork
    exact uploadWorkGo_of_canceled _ _ _ _ _ _ _ _ _ _ _ _ hA
  · intro o env file item hash t track resume s K hnok h
    unfold uploadWork
    exact uploadWorkGo_presence o env file item hash hnok _ t track resume s K h

theorem claim5_cancel_silent_no_delete_witness :
    (∃ evs s', attempt envCancel fileA 0 false itemA hashA trackA initUp
        = AttemptOut.canceled evs s'
      ∧ uploadWork o0 envCancel fileA 0 itemA hashA trackA false initUp = (evs, s')
      ∧ evsCount isFailEv evs = 0 ∧ evsCount isRetryEv evs = 0
      ∧ evsCount isEndEv evs = 0)
    ∧ (sget (uploadWork o0 envFailNC fileA 0 itemA hashA trackA false
        stCached).2.store (trackKey hashA)).isSome :=
  ⟨claim5_cancel_silent_no_delete.1 o0 envCancel fileA 0 false itemA hashA trackA
      initUp exCancel (Or.inl ⟨tok0, rfl⟩) rfl rfl,
    claim5_cancel_silent_no_delete.2 o0 envFailNC fileA itemA hashA 0 trackA false
      stCached (trackKey hashA) (fun _ _ h => Except.noConfusion h) (by decide)⟩

/-- Claim C6: the expiry sweep removes exactly the entries under the
namespace prefix whose parsed value carries a positive `lastTime` older
than the configured expiry — malformed or timestamp-less entries and
fresh entries survive — and `upload()` runs the sweep first: every other
key reads, after `upload()`, exactly as it does right after sweeping. -/
theorem claim6_sweep_exact :
    (∀ (now expireTime : Int) (st : Store) (k : String) (v : SVal),
      (k, v) ∈ cleanTracks now expireTime st ↔
        ((k, v) ∈ st ∧
          ¬(strStartsWith k storageKeyPfx = true
            ∧ ∃ lt, svalLastTime v = some lt ∧ 0 < lt ∧ now - lt > expireTime)))
    ∧ (∀ (o : OssOptions) (env : Env) (file : File) (p : OssUploadParamOpt)
        (ra : Bool) (s : UpState) (k : String),
        k ≠ trackKey (uploadHash o file p) →
        sget (upload o env file p ra s).2.1.store k
          = sget (cleanTracks env.now o.expireTime s.store) k) := by
  constructor
  · intro now expireTime st k v
    unfold cleanTracks
    rw [List.mem_filter]
    constructor
    · rintro ⟨h1, h2⟩
      refine ⟨h1, fun hc => ?_⟩
      rw [← sweepable_iff now expireTime k v] at hc
      rw [hc] at h2
      simp at h2
    · rintro ⟨h1, h2⟩
      refine ⟨h1, ?_⟩
      cases hb : sweepable now expireTime k v
      · rfl
      · exact absurd ((sweepable_iff now expireTime k v).mp hb) h2
  · exact upload_store_frame

theorem claim6_sweep_exact_witness :
    trackKey "zzz" ≠ trackKey (uploadHash o0 fileA emptyParam)
    ∧ sget (upload o0 envOk fileA emptyParam false
        { initUp with store := [(trackKey "zzz", vOld)] }).2.1.store (trackKey "zzz")
      = sget (cleanTracks envOk.now o0.expireTime [(trackKey "zzz", vOld)])
          (trackKey "zzz") :=
  ⟨by decide,
    claim6_sweep_exact.2 o0 envOk fileA emptyParam false
      { initUp with store := [(trackKey "zzz", vOld)] } (trackKey "zzz") (by decide)⟩

/-- Claim C7: with a chain in progress (`hasBegin`) and a remembered
fingerprint, calling `stop()` twice produces exactly one `end` event, the
second call emits nothing at all, and no Track remains for the remembered
fingerprint; `pause()` never touches the store, and `resume()` merely
re-enters `upload` (whose only deletions are the expiry sweep and the
success path), so `stop()` is the only control operation that deletes the
persisted Track directly. -/
theorem claim7_stop_twice :
    (∀ (s : UpState) (h : String), s.hasBegin = true → s.hash = some h → h ≠ "" →
      evsCount isEndEv ((stop s).1 ++ (stop (stop s).2).1) = 1
      ∧ (stop (stop s).2).1 = []
      ∧ sget (stop (stop s).2).2.store (trackKey h) = none)
    ∧ (∀ s : UpState, (pause s).2.store = s.store)
    ∧ (∀ (o : OssOptions) (env : Env) (s : UpState) (f : File),
        s.isPausedInner = true → s.file = some f →
        resumeOp o env s = upload o env f emptyParam true s) := by
  refine ⟨?_, pause_store, resumeOp_paused⟩
  intro s h hb hs hne
  have stop_eq : ∀ x : UpState,
      stop x = ((pause x).1 ++ (endEmit (pause x).2).1, clean (endEmit (pause x).2).2) :=
    fun x => rfl
  have hpb : (pause s).2.hasBegin = true := by rw [pause_hasBegin]; exact hb
  have hend1 : (endEmit (pause s).2).1 = [Ev.end_] := by
    rw [endEmit_evs, hpb]
    rfl
  have hhash1 : (endEmit (pause s).2).2.hash = some h := by
    rw [endEmit_hash, pause_hash]
    exact hs
  have hstop2 : (stop s).2 = clean (endEmit (pause s).2).2 := rfl
  have hb1 : (stop s).2.hasBegin = false := by
    rw [hstop2, clean_hasBegin]
    exact endEmit_hasBegin_false _
  have hh1 : (stop s).2.hash = none := by
    rw [hstop2]
    exact clean_hash_none _ h hhash1 hne
  have hp2 : pause (stop s).2 = ([], (stop s).2) := by
    cases hc : s.client
    · refine pause_noclient _ ?_
      rw [hstop2, clean_client, endEmit_client, pause_client]
      exact hc
    · refine pause_paused _ ?_
      rw [hstop2, clean_flag, endEmit_flag]
      exact pause_flag_some s _ hc
  have hsecond : stop (stop s).2 = ([], (stop s).2) := by
    rw [stop_eq (stop s).2, hp2]
    show ([] ++ (endEmit (stop s).2).1, clean (endEmit (stop s).2).2) = ([], (stop s).2)
    rw [endEmit_of_false _ hb1, clean_hash_of_none _ hh1]
    rfl
  refine ⟨?_, ?_, ?_⟩
  · rw [hsecond, stop_eq s, hend1]
    simp [evsCount_append, evsCount_single, evsCount_nil, isEndEv,
      pause_count_zero s isEndEv (fun _ => rfl)]
  · rw [hsecond]
  · rw [hsecond, hstop2]
    exact clean_some_store _ h hhash1 hne

theorem claim7_stop_twice_witness :
    evsCount isEndEv ((stop stActive).1 ++ (stop (stop stActive).2).1) = 1
    ∧ (stop (stop stActive).2).1 = []
    ∧ sget (stop (stop stActive).2).2.store (trackKey hashA) = none :=
  claim7_stop_twice.1 stActive hashA rfl rfl (by decide)

/-- Claim C8: when a cached Track exists, the caller did not pass
`resume = true`, and the resume-policy function answers `cancel`, the
whole `upload()` call is a no-op: no event is emitted, no attempt starts,
no exception escapes, and the state is unchanged apart from the initial
expiry sweep. -/
theorem claim8_policy_cancel_noop (o : OssOptions) (env : Env) (file : File)
    (p : OssUploadParamOpt) (s : UpState) (ct : OssTrack)
    (hct : getTrack (cleanTracks env.now o.expireTime s.store) (uploadHash o file p)
      = some ct)
    (hdec : env.useCache file ct = UseCacheRes.cancel) :
    upload o env file p false s
      = ([], { s with store := cleanTracks env.now o.expireTime s.store }, none) := by
  unfold uploadHash at hct
  simp only [upload, hct, hdec]
  rfl

theorem claim8_policy_cancel_noop_witness :
    getTrack (cleanTracks envCancelDec.now o0.expireTime stCached.store)
        (uploadHash o0 fileA emptyParam) = some trackA
    ∧ upload o0 envCancelDec fileA emptyParam false stCached
      = ([], { stCached with
          store := cleanTracks envCancelDec.now o0.expireTime stCached.store }, none) :=
  ⟨by decide,
    claim8_policy_cancel_noop o0 envCancelDec fileA emptyParam stCached trackA
      (by decide) rfl⟩

/-- Claim C9: the fingerprint is a pure deterministic function of the
serializable identity fields only: two files agreeing on name, size, mime
type and last-modified timestamp, with equal upload parameters, fingerprint
identically — regardless of the binary payload. -/
theorem claim9_fingerprint_deterministic (f1 f2 : File) (p1 p2 : OssParamR)
    (hn : f1.name = f2.name) (hs : f1.size = f2.size) (ht : f1.type = f2.type)
    (hm : f1.lastModified = f2.lastModified) (hp : p1 = p2) :
    getHash (getOssItem f1 p1) = getHash (getOssItem f2 p2) := by
  unfold getOssItem
  rw [hn, hs, ht, hm, hp]

theorem claim9_fingerprint_deterministic_witness :
    fileA.name = fileB.name ∧ fileA.size = fileB.size ∧ fileA.type = fileB.type
    ∧ fileA.lastModified = fileB.lastModified ∧ fileA.contents ≠ fileB.contents
    ∧ getHash (getOssItem fileA paramA) = getHash (getOssItem fileB paramA) :=
  ⟨rfl, rfl, rfl, rfl, by decide,
    claim9_fingerprint_deterministic fileA fileB paramA paramA rfl rfl rfl rfl rfl⟩

/-- Claim C10: along any sequence of public operations, two consecutive
`isPausedChanged` events never carry the same value; `pause()` with no
transfer client or while already paused, and `resume()` while not paused,
change no state and emit nothing. -/
theorem claim10_pausedChanged_alternates :
    (∀ (o : OssOptions) (env : Env) (cmds : List Cmd) (s : UpState),
      noAdjDup (pausedVals (runCmds o env cmds s).1) = true)
    ∧ (∀ s : UpState, s.client = none → pause s = ([], s))
    ∧ (∀ s : UpState, s.isPausedInner = true → pause s = ([], s))
    ∧ (∀ (o : OssOptions) (env : Env) (s : UpState),
        s.isPausedInner = false → resumeOp o env s = ([], s, none)) := by
  refine ⟨?_, pause_noclient, pause_paused, resumeOp_notPaused⟩
  intro o env cmds s
  exact alt_noAdjDup _ _ (runCmds_invp o env cmds s).1

theorem claim10_pausedChanged_alternates_witness :
    pause initUp = ([], initUp) ∧ resumeOp o0 envOk initUp = ([], initUp, none) :=
  ⟨claim10_pausedChanged_alternates.2.1 initUp rfl,
    claim10_pausedChanged_alternates.2.2.2 o0 envOk initUp rfl⟩

end StUtil
